import Mathlib

/-!
Permission Finder: pfind.c and spfind.c

A shallow embedding of the two C programs of the repository and the
properties of their specification.

Conventions of the embedding

* A C string is the list of its characters before the terminating NUL
  (`List Char`); `strlen` is `List.length`.  A `const char*` that may be
  `NULL` is an `Option (List Char)`.
* `mode_t` values are natural numbers, `&` is `Nat.land`.
* Behaviour that the C standard leaves undefined (reading past the end of
  `P_FLAG`, using a path buffer that holds no terminator, signed overflow) is
  the result `none`.
* The recursion of `traverse` is bounded by a fuel argument; `none` is also
  the result when the fuel runs out.
-/

namespace PFind

/-! ## Constants of the C library -/

/-- Exit status `EXIT_SUCCESS` of stdlib.h. -/
def EXIT_SUCCESS : Nat := 0

/-- Exit status `EXIT_FAILURE` of stdlib.h. -/
def EXIT_FAILURE : Nat := 1

/-- Path length ceiling, pfind.c lines 11-13 (the value limits.h gives on
Linux and the fallback of the source). -/
def PATH_MAX : Nat := 4096

/-- Owner read bit of sys/stat.h. -/
def S_IRUSR : Nat := 0o400
/-- Owner write bit of sys/stat.h. -/
def S_IWUSR : Nat := 0o200
/-- Owner execute bit of sys/stat.h. -/
def S_IXUSR : Nat := 0o100
/-- Group read bit of sys/stat.h. -/
def S_IRGRP : Nat := 0o040
/-- Group write bit of sys/stat.h. -/
def S_IWGRP : Nat := 0o020
/-- Group execute bit of sys/stat.h. -/
def S_IXGRP : Nat := 0o010
/-- Other read bit of sys/stat.h. -/
def S_IROTH : Nat := 0o004
/-- Other write bit of sys/stat.h. -/
def S_IWOTH : Nat := 0o002
/-- Other execute bit of sys/stat.h. -/
def S_IXOTH : Nat := 0o001

/-- File type mask of sys/stat.h. -/
def S_IFMT : Nat := 0o170000
/-- File type of a directory. -/
def S_IFDIR : Nat := 0o040000
/-- File type of a symbolic link. -/
def S_IFLNK : Nat := 0o120000

/-- The macro `S_ISDIR(mode)`. -/
def S_ISDIR (mode : Nat) : Bool := mode &&& S_IFMT == S_IFDIR

/-- The macro `S_ISLNK(mode)`. -/
def S_ISLNK (mode : Nat) : Bool := mode &&& S_IFMT == S_IFLNK

/-! ## pfind.c: the permission string -/

/-- The table `P_FLAG` of pfind.c line 15. -/
def P_FLAG : List Nat :=
  [S_IRUSR, S_IWUSR, S_IXUSR, S_IRGRP, S_IWGRP, S_IXGRP, S_IROTH, S_IWOTH, S_IXOTH]

/-- The local table `valid_chars` of `is_valid_permissions` (pfind.c line 27);
the third character of each row is the zero the initializer leaves. -/
def valid_chars : List (List Char) :=
  [['-', 'r', '\x00'], ['-', 'w', '\x00'], ['-', 'x', '\x00']]

/-- Entry `valid_chars[r][c]`. -/
def valid_char (r c : Nat) : Char := (valid_chars.getD r []).getD c '\x00'

/-- The loop `for (size_t i = 0; i < 9; i++)` of `is_valid_permissions`
(pfind.c lines 29-35), `n` iterations left, at index `i`. -/
def is_valid_loop (str : List Char) : Nat → Nat → Nat
  | 0, _ => 1
  | n + 1, i =>
    let c := str.getD i '\x00'
    if c ≠ valid_char (i % 3) 0 ∧ c ≠ valid_char (i % 3) 1 then 0
    else is_valid_loop str n (i + 1)

/-- The function `is_valid_permissions` of pfind.c lines 22-38 (the same text
is in spfind.c lines 18-34). -/
def is_valid_permissions (str : Option (List Char)) : Nat :=
  match str with
  | none => 0
  | some s => if s.length ≠ 9 then 0 else is_valid_loop s 9 0

/-- The loop of `is_matching_permissions` (pfind.c lines 41-45) with `n`
iterations left, at index `i`.  Reading `P_FLAG[i]` outside the table is
undefined: `none`. -/
def is_matching_loop (permissions : List Char) (mode : Nat) : Nat → Nat → Option Nat
  | 0, _ => some 1
  | n + 1, i =>
    match P_FLAG.get? i with
    | none => none
    | some flag =>
      let c := permissions.getD i '\x00'
      if (c = '-' ∧ mode &&& flag ≠ 0) ∨ (c ≠ '-' ∧ mode &&& flag = 0) then some 0
      else is_matching_loop permissions mode n (i + 1)

/-- The function `is_matching_permissions` of pfind.c lines 40-48. -/
def is_matching_permissions (permissions : List Char) (mode : Nat) : Option Nat :=
  is_matching_loop permissions mode permissions.length 0

/-- The test of pfind.c line 42 at index `i` with the flag `flag`. -/
def disagrees (permissions : List Char) (mode : Nat) (i flag : Nat) : Prop :=
  (permissions.getD i '\x00' = '-' ∧ mode &&& flag ≠ 0) ∨
    (permissions.getD i '\x00' ≠ '-' ∧ mode &&& flag = 0)

/-- The letter the specification fixes for position `i` of a permission
string: r at 0, 3, 6; w at 1, 4, 7; x at 2, 5, 8. -/
def letter (i : Nat) : Char :=
  if i = 0 ∨ i = 3 ∨ i = 6 then 'r'
  else if i = 1 ∨ i = 4 ∨ i = 7 then 'w'
  else 'x'

/-! ## The file system seen by pfind.c -/

/-- The system calls `traverse` makes, as functions of the path they are
given: `stat` (follows symbolic links), `lstat` (does not), `opendir`
together with the sequence of `d_name`s that the `readdir` calls on the
handle then return.  `none` is a failed call.  A path of `PATH_MAX` or more
bytes is refused by all three (`ENAMETOOLONG`). -/
structure FS where
  stat : List Char → Option Nat
  lstat : List Char → Option Nat
  opendir : List Char → Option (List (List Char))
  name_too_long : ∀ p : List Char, PATH_MAX ≤ p.length →
    stat p = none ∧ lstat p = none ∧ opendir p = none

/-- A diagnostic line on the error channel. -/
inductive Diag where
  | cannot_stat (path : List Char)
  | cannot_open (path : List Char)
  deriving DecidableEq, Repr

/-- What a call of `traverse` did: the paths it passed to `stat` or `lstat`,
the lines it printed on standard output and the diagnostics it printed on
the error channel, each in order. -/
structure Trace where
  visited : List (List Char)
  out : List (List Char)
  err : List Diag
  deriving DecidableEq, Repr

/-- Nothing done. -/
def Trace.empty : Trace := ⟨[], [], []⟩

/-- One trace followed by another. -/
def Trace.append (a b : Trace) : Trace :=
  ⟨a.visited ++ b.visited, a.out ++ b.out, a.err ++ b.err⟩

/-- The contents of `full_filename` after pfind.c lines 83-99: the path
(nothing for the path "/"), then a slash.  `pathlen` is the length of the
result.  When the path fills the buffer the terminator of line 99 is written
past its end: `none`. -/
def dir_prefix (path : List Char) : Option (List Char) :=
  let copied := if path ≠ ['/'] then path.take PATH_MAX else []
  if copied.length + 1 ≤ PATH_MAX then some (copied ++ ['/']) else none

/-- The string in `full_filename` after the `strncpy` of pfind.c line 106,
`full` being its contents before (of length `pathlen`, with the terminator at
index `pathlen`).  `strncpy` writes `PATH_MAX - pathlen` bytes: the name and
padding zeros when the name is shorter than that, nothing when that is zero,
and otherwise the first bytes of the name with no terminator, the byte at
index `PATH_MAX` never having been written: `none`.  A `pathlen` above
`PATH_MAX` (which `dir_prefix` never yields) would make the count wrap
around: `none`. -/
def append_name (full : List Char) (name : List Char) : Option (List Char) :=
  if PATH_MAX < full.length then none
  else
    let n := PATH_MAX - full.length
    if name.length < n then some (full ++ name)
    else if n = 0 then some full
    else none

/-- The path `traverse` builds for the child `name` of the directory `path`
(pfind.c lines 83-106). -/
def child_path (path name : List Char) : Option (List Char) :=
  match dir_prefix path with
  | none => none
  | some full => append_name full name

/-- The loop `while ((dir = readdir(d)) != NULL)` of pfind.c lines 103-111
over the names `readdir` returns; `call` is the recursive call
`traverse(full_filename, permissions, 0)`, whose return value the loop does
not use. -/
def readdir_loop (call : List Char → Option (Trace × Nat)) (full : List Char) :
    List (List Char) → Option Trace
  | [] => some Trace.empty
  | name :: rest =>
    if name ≠ ['.'] ∧ name ≠ ['.', '.'] then
      match append_name full name with
      | none => none
      | some child =>
        match call child with
        | none => none
        | some (below, _) =>
          match readdir_loop call full rest with
          | none => none
          | some after => some (below.append after)
    else readdir_loop call full rest

/-- The function `traverse` of pfind.c lines 50-117.  The result is the
trace of the call and its return value. -/
def traverse (fs : FS) (permissions : List Char) :
    Nat → List Char → Bool → Option (Trace × Nat)
  | 0, _, _ => none
  | fuel + 1, path, initial_traverse =>
    match (if initial_traverse then fs.stat path else fs.lstat path) with
    | none => some (⟨[path], [], [Diag.cannot_stat path]⟩, EXIT_FAILURE)
    | some mode =>
      match is_matching_permissions permissions mode with
      | none => none
      | some hit =>
        let printed := if hit ≠ 0 then [path] else []
        if S_ISDIR mode then
          match fs.opendir path with
          | none => some (⟨[path], printed, [Diag.cannot_open path]⟩, EXIT_FAILURE)
          | some names =>
            match dir_prefix path with
            | none => none
            | some full =>
              match readdir_loop (fun child => traverse fs permissions fuel child false)
                  full names with
              | none => none
              | some below => some ((Trace.mk [path] printed []).append below, EXIT_SUCCESS)
        else some (⟨[path], printed, []⟩, EXIT_SUCCESS)

/-! ## pfind.c: main -/

/-- The entries of a directory, in listing order.  `cons` is an entry with
its name, the mode `lstat` reports for it, and its own entries (none unless
it is a directory that opens); `gone` is an entry whose query fails;
`locked` is a directory, with its mode, that cannot be opened. -/
inductive Entries where
  | nil
  | cons (name : List Char) (mode : Nat) (kids : Entries) (rest : Entries)
  | gone (name : List Char) (rest : Entries)
  | locked (name : List Char) (mode : Nat) (rest : Entries)
  deriving Repr

/-- The names of the entries, in order. -/
def Entries.names : Entries → List (List Char)
  | Entries.nil => []
  | Entries.cons name _ _ rest => name :: rest.names
  | Entries.gone name rest => name :: rest.names
  | Entries.locked name _ rest => name :: rest.names

/-- The number of nested calls of `traverse` the entries need. -/
def Entries.height : Entries → Nat
  | Entries.nil => 0
  | Entries.cons _ _ kids rest => max (kids.height + 1) rest.height
  | Entries.gone _ rest => max 1 rest.height
  | Entries.locked _ _ rest => max 1 rest.height

/-- The entries of a directory whose query succeeds, each with its name and
mode, in listing order. -/
def Entries.modes : Entries → List (List Char × Nat)
  | Entries.nil => []
  | Entries.cons name mode _ rest => (name, mode) :: rest.modes
  | Entries.gone _ rest => rest.modes
  | Entries.locked name mode rest => (name, mode) :: rest.modes

/-- No entry fails: every query and every opening of a directory of the tree
succeeds. -/
def AllOk : Entries → Prop
  | Entries.nil => True
  | Entries.cons _ _ kids rest => AllOk kids ∧ AllOk rest
  | Entries.gone _ _ => False
  | Entries.locked _ _ _ => False

/-- The path of the entry `name` of the directory at `path`: the two joined
by one slash ("/" itself ends in its slash). -/
def joinPath (path name : List Char) : List Char :=
  if path = ['/'] then '/' :: name else path ++ '/' :: name

/-- The names of a tree are those of a file system: no name is empty or holds
a slash, and no directory holds two entries of one name. -/
def WellNamed : Entries → Prop
  | Entries.nil => True
  | Entries.cons name _ kids rest =>
    name ≠ [] ∧ '/' ∉ name ∧ name ∉ rest.names ∧ WellNamed kids ∧ WellNamed rest
  | Entries.gone name rest =>
    name ≠ [] ∧ '/' ∉ name ∧ name ∉ rest.names ∧ WellNamed rest
  | Entries.locked name _ rest =>
    name ≠ [] ∧ '/' ∉ name ∧ name ∉ rest.names ∧ WellNamed rest

/-- The names `readdir` returns that are not the pseudo-entries "." and
"..". -/
def realNames (names : List (List Char)) : List (List Char) :=
  names.filter (fun name => decide (name ≠ ['.'] ∧ name ≠ ['.', '.']))

/-- The file system shows the entries `es` in the directory at `path`.  For a
`cons` entry `lstat` of its path succeeds with its mode; if that is a
directory it opens and lists, besides "." and "..", the names of its own
entries, which the file system shows in turn; if not, it has no entries.
For a `gone` entry `lstat` of its path (a path shorter than `PATH_MAX`)
fails.  For a `locked` entry `lstat` reports a directory and `opendir`
fails. -/
def Shows (fs : FS) : List Char → Entries → Prop
  | _, Entries.nil => True
  | path, Entries.cons name mode kids rest =>
    fs.lstat (joinPath path name) = some mode ∧
    (if S_ISDIR mode then
      (∃ names, fs.opendir (joinPath path name) = some names ∧ realNames names = kids.names) ∧
        Shows fs (joinPath path name) kids
     else kids = Entries.nil) ∧
    Shows fs path rest
  | path, Entries.gone name rest =>
    fs.lstat (joinPath path name) = none ∧ (joinPath path name).length < PATH_MAX ∧
    Shows fs path rest
  | path, Entries.locked name mode rest =>
    fs.lstat (joinPath path name) = some mode ∧ S_ISDIR mode = true ∧
    fs.opendir (joinPath path name) = none ∧
    Shows fs path rest

/-- The file system shows at `root` an entry of mode `mode` (as `stat`
reports it, symbolic links followed) with the entries `kids`. -/
def ShowsRoot (fs : FS) (root : List Char) (mode : Nat) (kids : Entries) : Prop :=
  fs.stat root = some mode ∧
  (if S_ISDIR mode then
    (∃ names, fs.opendir root = some names ∧ realNames names = kids.names) ∧
      Shows fs root kids
   else kids = Entries.nil)

/-- The depth-first pre-order listing of the entries under the directory at
`path` whose query succeeds: each entry's path and mode, an entry before its
own entries, siblings in listing order. -/
def preorder : List Char → Entries → List (List Char × Nat)
  | _, Entries.nil => []
  | path, Entries.cons name mode kids rest =>
    (joinPath path name, mode) :: (preorder (joinPath path name) kids ++ preorder path rest)
  | path, Entries.gone _ rest => preorder path rest
  | path, Entries.locked name mode rest => (joinPath path name, mode) :: preorder path rest

/-- The pre-order listing of a whole tree, the root first. -/
def preorderRoot (root : List Char) (mode : Nat) (kids : Entries) : List (List Char × Nat) :=
  (root, mode) :: preorder root kids

/-- The paths of all the entries under the directory at `path`, failing ones
included, in depth-first pre-order. -/
def allPaths : List Char → Entries → List (List Char)
  | _, Entries.nil => []
  | path, Entries.cons name _ kids rest =>
    joinPath path name :: (allPaths (joinPath path name) kids ++ allPaths path rest)
  | path, Entries.gone name rest => joinPath path name :: allPaths path rest
  | path, Entries.locked name _ rest => joinPath path name :: allPaths path rest

/-- The diagnostics of the failing entries under the directory at `path`, in
depth-first pre-order. -/
def diagnostics : List Char → Entries → List Diag
  | _, Entries.nil => []
  | path, Entries.cons name _ kids rest =>
    diagnostics (joinPath path name) kids ++ diagnostics path rest
  | path, Entries.gone name rest =>
    Diag.cannot_stat (joinPath path name) :: diagnostics path rest
  | path, Entries.locked name _ rest =>
    Diag.cannot_open (joinPath path name) :: diagnostics path rest

/-- The paths of a listing whose mode the permission string matches. -/
def matching (permissions : List Char) (l : List (List Char × Nat)) : List (List Char) :=
  (l.filter (fun e => decide (is_matching_permissions permissions e.2 = some 1))).map Prod.fst

/-- The trace expected of the listing loop over the entries `es` of the
directory at `path`: every entry queried, the matching ones among those whose
query succeeds printed, a diagnostic for each failing one. -/
def walkTrace (permissions : List Char) (path : List Char) (es : Entries) : Trace :=
  ⟨allPaths path es, matching permissions (preorder path es), diagnostics path es⟩

/-- The first 1024 bytes of the path of a file four directories deep, the
directory names being 255, 255, 255 and 254 letters long: they end with the
slash before the file's name. -/
def deepDir : List Char :=
  '/' :: List.replicate 255 'a' ++ '/' :: List.replicate 255 'a' ++
    '/' :: List.replicate 255 'a' ++ '/' :: List.replicate 254 'a' ++ ['/']

/-! ## Concrete file systems -/

/-- The file system given by a table: for each path what `stat` and `lstat`
report and what `opendir` with `readdir` lists; every path not in the table,
and every path of `PATH_MAX` bytes or more, fails. -/
def FS.ofTable (t : List (List Char × (Option Nat × Option Nat × Option (List (List Char))))) :
    FS where
  stat p := if PATH_MAX ≤ p.length then none else (t.lookup p).bind (fun e => e.1)
  lstat p := if PATH_MAX ≤ p.length then none else (t.lookup p).bind (fun e => e.2.1)
  opendir p := if PATH_MAX ≤ p.length then none else (t.lookup p).bind (fun e => e.2.2)
  name_too_long := by
    intro p h
    simp [h]

/-- A directory /r reached through a symbolic link (mode 0755 behind a link
of mode 0777) holding a symbolic link `up` that points back to /r and a file
`f` of mode 0644. -/
def fsLinks : FS :=
  FS.ofTable
    [("/r".toList, (some 0o040755, some 0o120777,
        some [".".toList, "..".toList, "up".toList, "f".toList])),
     ("/r/up".toList, (some 0o040755, some 0o120777,
        some [".".toList, "..".toList, "up".toList, "f".toList])),
     ("/r/f".toList, (some 0o100644, some 0o100644, none))]

/-- The entries of /r in `fsLinks`. -/
def kidsLinks : Entries :=
  Entries.cons "up".toList 0o120777 Entries.nil
    (Entries.cons "f".toList 0o100644 Entries.nil Entries.nil)

/-- The directory /tmp/t lists `a`, `d` and `b`: the query of `a` fails (the
entry is gone when it is queried), `d` is a directory of mode 0700 that
cannot be opened, `b` is a file of mode 0644. -/
def fsFail : FS :=
  FS.ofTable
    [("/tmp/t".toList, (some 0o040755, some 0o040755,
        some [".".toList, "..".toList, "a".toList, "d".toList, "b".toList])),
     ("/tmp/t/d".toList, (some 0o040700, some 0o040700, none)),
     ("/tmp/t/b".toList, (some 0o100644, some 0o100644, none))]

/-- The entries of /tmp/t in `fsFail`. -/
def kidsFail : Entries :=
  Entries.gone "a".toList
    (Entries.locked "d".toList 0o040700
      (Entries.cons "b".toList 0o100644 Entries.nil Entries.nil))

/-- A plain directory /d holding one symbolic link `self` that points to
itself: `lstat` reports the link, `stat` and `opendir` of its path fail. -/
def fsSelfLink : FS :=
  FS.ofTable
    [("/d".toList, (some 0o040755, some 0o040755,
        some [".".toList, "..".toList, "self".toList])),
     ("/d/self".toList, (none, some 0o120777, none))]

/-- The scenario of the specification with /tmp/t itself of mode 0755:
/tmp/t holds the file `a` (0644) and the directory `b` (0755), which holds
the file `c` (0600). -/
def fsScenario : FS :=
  FS.ofTable
    [("/tmp/t".toList, (some 0o040755, some 0o040755,
        some [".".toList, "..".toList, "a".toList, "b".toList])),
     ("/tmp/t/a".toList, (some 0o100644, some 0o100644, none)),
     ("/tmp/t/b".toList, (some 0o040755, some 0o040755,
        some [".".toList, "..".toList, "c".toList])),
     ("/tmp/t/b/c".toList, (some 0o100600, some 0o100600, none))]

/-- The root directory "/" holding one file `a` of mode 0644. -/
def fsSlash : FS :=
  FS.ofTable
    [("/".toList, (some 0o040755, some 0o040755,
        some [".".toList, "..".toList, "a".toList])),
     ("/a".toList, (some 0o100644, some 0o100644, none))]

/-- The scenario of the specification in a file system: /tmp/t is a
directory of mode `mt` listing `a` and `b` in either order; `a` is no
directory and has the permission bits rw-r--r--; `b` is a directory with the
bits rwxr-xr-x listing `c`; `c` is no directory and has the bits
rw-------. -/
def Scenario (fs : FS) (mt ma mb mc : Nat) : Prop :=
  fs.stat "/tmp/t".toList = some mt ∧ S_ISDIR mt = true ∧
  (∃ names, fs.opendir "/tmp/t".toList = some names ∧
    (realNames names = ["a".toList, "b".toList] ∨
      realNames names = ["b".toList, "a".toList])) ∧
  fs.lstat "/tmp/t/a".toList = some ma ∧ S_ISDIR ma = false ∧ ma &&& 0o777 = 0o644 ∧
  fs.lstat "/tmp/t/b".toList = some mb ∧ S_ISDIR mb = true ∧ mb &&& 0o777 = 0o755 ∧
  (∃ names, fs.opendir "/tmp/t/b".toList = some names ∧ realNames names = ["c".toList]) ∧
  fs.lstat "/tmp/t/b/c".toList = some mc ∧ S_ISDIR mc = false ∧ mc &&& 0o777 = 0o600

/-- The lines a run printed, when it ended. -/
def printed (r : Option (Trace × Nat)) : Option (List (List Char)) :=
  r.map (fun x => x.1.out)

/-! ## spfind.c: the read loop -/

/-- The largest `int`. -/
def INT_MAX : Nat := 2147483647

/-- Size of `buffer` in spfind.c line 165. -/
def BUFFER_SIZE : Nat := 1024

/-- Whether `strncmp(s1, s2, n) == 0`, `s1` being a byte array in which
`none` is a byte never written and `s2` a string.  A comparison that
reads a byte never written, or past the end of the array, has no defined
result: `none`. -/
def strncmp_eq : List (Option Char) → List Char → Nat → Option Bool
  | _, _, 0 => some true
  | [], _, _ + 1 => none
  | none :: _, _, _ + 1 => none
  | some c :: _, [], _ + 1 => some (decide (c = '\x00'))
  | some c :: s1, d :: s2, n + 1 =>
    if c ≠ d then some false
    else if c = '\x00' then some true
    else strncmp_eq s1 s2 n

/-- The variables of the read loop of spfind.c (lines 165-169). -/
structure ReadState where
  buffer : List (Option Char)
  line_count : Nat
  is_usage : Nat
  deriving DecidableEq, Repr

/-- The variables before the loop: nothing written to `buffer` yet. -/
def ReadState.init : ReadState := ⟨List.replicate BUFFER_SIZE none, 0, 0⟩

/-- The buffer after a `read` that returned the bytes `chunk`. -/
def read_into (buffer : List (Option Char)) (chunk : List Char) : List (Option Char) :=
  chunk.map some ++ buffer.drop chunk.length

/-- Lines 172-180 of spfind.c for one successful `read` returning `chunk`
(not empty, at most `BUFFER_SIZE` bytes): the test for the usage text at the
start of the buffer while no newline has been counted, then the count of the
newlines of the chunk.  Counting past `INT_MAX` is undefined: `none`. -/
def read_step (st : ReadState) (chunk : List Char) : Option ReadState :=
  let buffer := read_into st.buffer chunk
  let usage : Option Nat :=
    if st.line_count = 0 then
      match strncmp_eq buffer "Usage:".toList 6 with
      | none => none
      | some true => some 1
      | some false => some st.is_usage
    else some st.is_usage
  match usage with
  | none => none
  | some is_usage =>
    let line_count := st.line_count + chunk.count '\n'
    if line_count ≤ INT_MAX then some ⟨buffer, line_count, is_usage⟩ else none

/-- What the end of spfind's `main` (lines 164-199) does: the bytes copied to
standard output, the number in the line "Total matches: N" when that line is
printed, and the exit status. -/
structure ReadResult where
  copied : List Char
  total : Option Nat
  status : Nat
  deriving DecidableEq, Repr

/-- The loop of spfind.c lines 172-186 over the successive reads; each comes
with whether the `write` of its bytes succeeds.  `close_ok` is whether the
`close` of line 188 succeeds.  After the loop come lines 187-199. -/
def read_loop (close_ok : Bool) :
    ReadState → List (List Char × Bool) → List Char → Option ReadResult
  | st, [], copied =>
    if close_ok then
      some ⟨copied, if st.is_usage = 0 then some st.line_count else none, EXIT_SUCCESS⟩
    else some ⟨copied, none, EXIT_FAILURE⟩
  | st, (chunk, write_ok) :: rest, copied =>
    match read_step st chunk with
    | none => none
    | some st1 =>
      if write_ok then read_loop close_ok st1 rest (copied ++ chunk)
      else some ⟨copied, none, EXIT_FAILURE⟩

/-- The end of spfind's `main` from line 164 on, for the given reads, every
`write` and the `close` succeeding. -/
def spfind_read (chunks : List (List Char)) : Option ReadResult :=
  read_loop true ReadState.init (chunks.map (fun c => (c, true))) []

/-- The first line of a byte stream: the bytes before its first newline. -/
def first_line (stream : List Char) : List Char :=
  stream.takeWhile (fun c => c ≠ '\n')

/-! ## Lemmas on the permission string -/

theorem is_valid_loop_zero_or_one (s : List Char) (n i : Nat) :
    is_valid_loop s n i = 0 ∨ is_valid_loop s n i = 1 := by
  induction n generalizing i with
  | zero => right; rfl
  | succ n ih =>
    unfold is_valid_loop
    dsimp only
    split
    · left; rfl
    · exact ih (i + 1)

theorem is_valid_loop_eq_one (s : List Char) (n i : Nat) :
    is_valid_loop s n i = 1 ↔
      ∀ j, i ≤ j → j < i + n →
        (s.getD j '\x00' = valid_char (j % 3) 0 ∨ s.getD j '\x00' = valid_char (j % 3) 1) := by
  induction n generalizing i with
  | zero =>
    constructor
    · intro _ j h1 h2; omega
    · intro _; rfl
  | succ n ih =>
    unfold is_valid_loop
    dsimp only
    split
    · rename_i hbad
      constructor
      · intro h; cases h
      · intro h
        rcases h i (Nat.le_refl i) (by omega) with h0 | h1
        · exact absurd h0 hbad.1
        · exact absurd h1 hbad.2
    · rename_i hok
      rw [ih (i + 1)]
      constructor
      · intro h j h1 h2
        by_cases hj : j = i
        · subst hj
          by_contra hcon
          exact hok ⟨fun h0 => hcon (Or.inl h0), fun h1 => hcon (Or.inr h1)⟩
        · exact h j (by omega) (by omega)
      · intro h j h1 h2
        exact h j (by omega) (by omega)

theorem valid_char_zero (j : Nat) : valid_char (j % 3) 0 = '-' := by
  have hall : ∀ r, r < 3 → valid_char r 0 = '-' := by decide
  exact hall (j % 3) (Nat.mod_lt _ (by decide))

theorem valid_char_one (j : Nat) (hj : j < 9) : valid_char (j % 3) 1 = letter j := by
  have hall : ∀ k, k < 9 → valid_char (k % 3) 1 = letter k := by decide
  exact hall j hj

theorem getD_eq_iff_get? (s : List Char) (j : Nat) (c : Char) (hj : j < s.length) :
    s.getD j '\x00' = c ↔ s.get? j = some c := by
  rw [List.getD_eq_getElem?_getD, List.get?_eq_getElem?, List.getElem?_eq_getElem hj]
  simp

/-- Acceptance by `is_valid_permissions`, position by position. -/
theorem valid_iff (s : List Char) :
    is_valid_permissions (some s) = 1 ↔
      s.length = 9 ∧ ∀ i, i < 9 → (s.get? i = some '-' ∨ s.get? i = some (letter i)) := by
  unfold is_valid_permissions
  dsimp only
  split
  · rename_i hlen
    constructor
    · intro h; cases h
    · intro h; exact absurd h.1 hlen
  · rename_i hlen
    have hlen9 : s.length = 9 := by omega
    rw [is_valid_loop_eq_one]
    constructor
    · intro h
      refine ⟨hlen9, fun i hi => ?_⟩
      have := h i (Nat.zero_le i) (by omega)
      rw [valid_char_zero, valid_char_one i hi] at this
      rw [getD_eq_iff_get? s i _ (by omega), getD_eq_iff_get? s i _ (by omega)] at this
      exact this
    · intro h j _ hj
      have := h.2 j (by omega)
      rw [valid_char_zero, valid_char_one j (by omega)]
      rw [getD_eq_iff_get? s j _ (by omega), getD_eq_iff_get? s j _ (by omega)]
      exact this

/-- C1: `is_valid_permissions` returns 1 exactly for the strings of length 9
whose character at each index is the dash or the letter fixed for that index,
and 0 for every other string, in particular for every string whose length is
not 9; "rwxr-xr--" is accepted and "rwxrwxrwz" is rejected. -/
theorem is_valid_permissions_spec (s : List Char) :
    (is_valid_permissions (some s) = 1 ↔
      s.length = 9 ∧ ∀ i, i < 9 → (s.get? i = some '-' ∨ s.get? i = some (letter i))) ∧
    (is_valid_permissions (some s) = 0 ∨ is_valid_permissions (some s) = 1) ∧
    (s.length ≠ 9 → is_valid_permissions (some s) = 0) ∧
    is_valid_permissions (some "rwxr-xr--".toList) = 1 ∧
    is_valid_permissions (some "rwxrwxrwz".toList) = 0 := by
  refine ⟨valid_iff s, ?_, ?_, by decide, by decide⟩
  · unfold is_valid_permissions
    dsimp only
    split
    · left; rfl
    · exact is_valid_loop_zero_or_one s 9 0
  · intro h
    unfold is_valid_permissions
    dsimp only
    rw [if_pos h]

/-! ## Lemmas on the matcher -/

theorem P_FLAG_get? (i : Nat) (hi : i < 9) : P_FLAG.get? i = some (0o400 >>> i) := by
  have hall : ∀ k, k < 9 → P_FLAG.get? k = some (0o400 >>> k) := by decide
  exact hall i hi

theorem is_matching_loop_zero_or_one (s : List Char) (m n i : Nat) (h : i + n ≤ 9) :
    is_matching_loop s m n i = some 0 ∨ is_matching_loop s m n i = some 1 := by
  induction n generalizing i with
  | zero => right; rfl
  | succ n ih =>
    unfold is_matching_loop
    rw [P_FLAG_get? i (by omega)]
    dsimp only
    split
    · left; rfl
    · exact ih (i + 1) (by omega)

theorem is_matching_loop_eq_one (s : List Char) (m n i : Nat) (h : i + n ≤ 9) :
    is_matching_loop s m n i = some 1 ↔
      ∀ j, i ≤ j → j < i + n → ¬ disagrees s m j (0o400 >>> j) := by
  induction n generalizing i with
  | zero =>
    constructor
    · intro _ j h1 h2; omega
    · intro _; rfl
  | succ n ih =>
    unfold is_matching_loop
    rw [P_FLAG_get? i (by omega)]
    dsimp only
    split
    · rename_i hbad
      constructor
      · intro h0; cases h0
      · intro h0; exact absurd hbad (h0 i (Nat.le_refl i) (by omega))
    · rename_i hok
      rw [ih (i + 1) (by omega)]
      constructor
      · intro h0 j h1 h2
        by_cases hj : j = i
        · subst hj; exact hok
        · exact h0 j (by omega) (by omega)
      · intro h0 j h1 h2
        exact h0 j (by omega) (by omega)

theorem letter_ne_dash (i : Nat) : letter i ≠ '-' := by
  unfold letter
  split
  · decide
  · split <;> decide

/-- On an accepted string the test of line 42 fails at `i` exactly when the
flag and the character agree. -/
theorem not_disagrees_iff (s : List Char) (m i : Nat) (hi : i < 9) (hlen : s.length = 9)
    (hc : s.get? i = some '-' ∨ s.get? i = some (letter i)) :
    ¬ disagrees s m i (0o400 >>> i) ↔
      ((m &&& (0o400 >>> i) ≠ 0 ↔ s.get? i = some (letter i)) ∧
        (m &&& (0o400 >>> i) = 0 ↔ s.get? i = some '-')) := by
  unfold disagrees
  have hne := letter_ne_dash i
  rcases hc with hc | hc
  · have hd : s.getD i '\x00' = '-' := (getD_eq_iff_get? s i _ (by omega)).2 hc
    have hnl : s.get? i ≠ some (letter i) := by
      rw [hc]; intro h; exact hne (Option.some.inj h).symm
    rw [hd]
    constructor
    · intro h
      have hz : m &&& (0o400 >>> i) = 0 := by
        by_contra hz
        exact h (Or.inl ⟨rfl, hz⟩)
      exact ⟨⟨fun h1 => absurd hz h1, fun h1 => absurd h1 hnl⟩, ⟨fun _ => hc, fun _ => hz⟩⟩
    · intro h hbad
      rcases hbad with ⟨_, hbad⟩ | ⟨hbad, _⟩
      · exact hbad (h.2.2 hc)
      · exact hbad rfl
  · have hd : s.getD i '\x00' = letter i := (getD_eq_iff_get? s i _ (by omega)).2 hc
    have hnd : s.get? i ≠ some '-' := by
      rw [hc]; intro h; exact hne (Option.some.inj h)
    rw [hd]
    constructor
    · intro h
      have hz : m &&& (0o400 >>> i) ≠ 0 := by
        intro hz
        exact h (Or.inr ⟨hne, hz⟩)
      exact ⟨⟨fun _ => hc, fun _ => hz⟩, ⟨fun h1 => absurd h1 hz, fun h1 => absurd h1 hnd⟩⟩
    · intro h hbad
      rcases hbad with ⟨hbad, _⟩ | ⟨_, hbad⟩
      · exact hne hbad
      · exact (h.1.2 hc) hbad

/-- C2: on a permission string `s` accepted by `is_valid_permissions` and any
mode `m`, `is_matching_permissions` returns 1 exactly when at each index
0..8 the bit `P_FLAG[i]`, which is octal 0400 shifted right by `i`, is set in
`m` when `s[i]` is the letter and clear when `s[i]` is the dash, and returns
0 otherwise; on the mode 0754 the string "rwxr-xr--" matches and "rwxrwxrwx"
does not. -/
theorem is_matching_permissions_spec (s : List Char) (m : Nat)
    (hs : is_valid_permissions (some s) = 1) :
    (is_matching_permissions s m = some 1 ↔
      ∀ i, i < 9 →
        ((m &&& (0o400 >>> i) ≠ 0 ↔ s.get? i = some (letter i)) ∧
          (m &&& (0o400 >>> i) = 0 ↔ s.get? i = some '-'))) ∧
    (is_matching_permissions s m = some 0 ∨ is_matching_permissions s m = some 1) ∧
    (∀ i, i < 9 → P_FLAG.get? i = some (0o400 >>> i)) ∧
    is_matching_permissions "rwxr-xr--".toList 0o754 = some 1 ∧
    is_matching_permissions "rwxrwxrwx".toList 0o754 = some 0 := by
  obtain ⟨hlen, hchars⟩ := (valid_iff s).1 hs
  refine ⟨?_, ?_, P_FLAG_get?, by decide, by decide⟩
  · unfold is_matching_permissions
    rw [hlen, is_matching_loop_eq_one s m 9 0 (by omega)]
    constructor
    · intro h i hi
      exact (not_disagrees_iff s m i hi hlen (hchars i hi)).1 (h i (Nat.zero_le i) (by omega))
    · intro h j _ hj
      exact (not_disagrees_iff s m j (by omega) hlen (hchars j (by omega))).2 (h j (by omega))
  · unfold is_matching_permissions
    rw [hlen]
    exact is_matching_loop_zero_or_one s m 9 0 (by omega)

/-- Witness of C2: the accepted string "rw-r--r--" and the mode 0100644. -/
theorem is_matching_permissions_spec_witness :
    is_valid_permissions (some "rw-r--r--".toList) = 1 ∧
    ((is_matching_permissions "rw-r--r--".toList 0o100644 = some 1 ↔
      ∀ i, i < 9 →
        ((0o100644 &&& (0o400 >>> i) ≠ 0 ↔ "rw-r--r--".toList.get? i = some (letter i)) ∧
          (0o100644 &&& (0o400 >>> i) = 0 ↔ "rw-r--r--".toList.get? i = some '-'))) ∧
    (is_matching_permissions "rw-r--r--".toList 0o100644 = some 0 ∨
      is_matching_permissions "rw-r--r--".toList 0o100644 = some 1) ∧
    (∀ i, i < 9 → P_FLAG.get? i = some (0o400 >>> i)) ∧
    is_matching_permissions "rwxr-xr--".toList 0o754 = some 1 ∧
    is_matching_permissions "rwxrwxrwx".toList 0o754 = some 0) :=
  ⟨by decide, is_matching_permissions_spec "rw-r--r--".toList 0o100644 (by decide)⟩

/-! ## Lemmas on the traversal -/

theorem FS.lstat_short (fs : FS) (p : List Char) (m : Nat) (h : fs.lstat p = some m) :
    p.length < PATH_MAX := by
  by_contra hlong
  have := (fs.name_too_long p (by omega)).2.1
  rw [this] at h
  cases h

theorem FS.stat_short (fs : FS) (p : List Char) (m : Nat) (h : fs.stat p = some m) :
    p.length < PATH_MAX := by
  by_contra hlong
  have := (fs.name_too_long p (by omega)).1
  rw [this] at h
  cases h

theorem dir_prefix_of_short (p : List Char) (h : p.length < PATH_MAX) :
    dir_prefix p = some (if p = ['/'] then ['/'] else p ++ ['/']) := by
  unfold dir_prefix
  by_cases hp : p = ['/']
  · subst hp
    simp [PATH_MAX]
  · have ht : List.take PATH_MAX p = p := List.take_of_length_le (by omega)
    simp only [ne_eq, hp, not_false_eq_true, if_true, if_false, ht]
    rw [if_pos (by omega)]

theorem joinPath_eq_prefix_append (p name : List Char) :
    joinPath p name = (if p = ['/'] then ['/'] else p ++ ['/']) ++ name := by
  unfold joinPath
  split <;> simp

theorem append_name_of_short (full name : List Char)
    (h : (full ++ name).length < PATH_MAX) : append_name full name = some (full ++ name) := by
  unfold append_name
  rw [List.length_append] at h
  rw [if_neg (by omega)]
  dsimp only
  rw [if_pos (by omega)]

theorem readdir_loop_realNames (call : List Char → Option (Trace × Nat)) (full : List Char)
    (names : List (List Char)) :
    readdir_loop call full names = readdir_loop call full (realNames names) := by
  induction names with
  | nil => rfl
  | cons name rest ih =>
    unfold realNames at ih ⊢
    by_cases h : name ≠ ['.'] ∧ name ≠ ['.', '.']
    · rw [List.filter_cons_of_pos (by simpa using h)]
      unfold readdir_loop
      rw [if_pos h, if_pos h, ih]
    · rw [List.filter_cons_of_neg (by simpa using h)]
      conv => lhs; unfold readdir_loop
      rw [if_neg h, ih]

theorem mem_realNames {names l : List (List Char)} (h : realNames names = l) :
    ∀ n, n ∈ l → n ≠ ['.'] ∧ n ≠ ['.', '.'] := by
  intro n hn
  rw [← h] at hn
  unfold realNames at hn
  have := (List.mem_filter.1 hn).2
  simpa using this

theorem matching_cons (s : List Char) (p : List Char) (m : Nat) (l : List (List Char × Nat)) :
    matching s ((p, m) :: l) =
      (if is_matching_permissions s m = some 1 then [p] else []) ++ matching s l := by
  unfold matching
  by_cases h : is_matching_permissions s m = some 1
  · rw [List.filter_cons_of_pos (by simpa using h), if_pos h]; rfl
  · rw [List.filter_cons_of_neg (by simpa using h), if_neg h]; rfl

theorem matching_append (s : List Char) (l1 l2 : List (List Char × Nat)) :
    matching s (l1 ++ l2) = matching s l1 ++ matching s l2 := by
  unfold matching
  rw [List.filter_append, List.map_append]

/-- On an accepted string the matcher returns 0 or 1, and what `traverse`
prints is the path when it returns 1. -/
theorem printed_eq (s : List Char) (hs : is_valid_permissions (some s) = 1) (m : Nat)
    (p : List Char) :
    ∃ hit, is_matching_permissions s m = some hit ∧
      (if hit ≠ 0 then [p] else []) = (if some hit = some 1 then [p] else []) := by
  obtain ⟨hlen, _⟩ := (valid_iff s).1 hs
  have h01 : is_matching_permissions s m = some 0 ∨ is_matching_permissions s m = some 1 := by
    unfold is_matching_permissions
    rw [hlen]
    exact is_matching_loop_zero_or_one s m 9 0 (by omega)
  rcases h01 with h | h
  · exact ⟨0, h, by simp⟩
  · exact ⟨1, h, by simp⟩

/-- One call of `traverse` on an entry whose query succeeds with `mode`: a
directory whose listing loop yields `below`, or an entry that is no
directory. -/
theorem traverse_entry (fs : FS) (s : List Char) (hs : is_valid_permissions (some s) = 1)
    (fuel : Nat) (p : List Char) (initial : Bool) (mode : Nat) (below : Trace)
    (hq : (if initial then fs.stat p else fs.lstat p) = some mode)
    (hdir : S_ISDIR mode = true →
      ∃ names full, fs.opendir p = some names ∧ dir_prefix p = some full ∧
        readdir_loop (fun child => traverse fs s fuel child false) full names = some below)
    (hfile : S_ISDIR mode = false → below = Trace.empty) :
    traverse fs s (fuel + 1) p initial =
      some ((Trace.mk [p] (if is_matching_permissions s mode = some 1 then [p] else [])
        []).append below, EXIT_SUCCESS) := by
  obtain ⟨hit, hhit, hprinted⟩ := printed_eq s hs mode p
  unfold traverse
  rw [hq]
  dsimp only
  rw [hhit]
  dsimp only
  rw [hprinted]
  cases hd : S_ISDIR mode with
  | true =>
    obtain ⟨names, full, ho, hp, hl⟩ := hdir hd
    rw [if_pos rfl, ho]
    dsimp only
    rw [hp]
    dsimp only
    rw [hl]
  | false =>
    rw [hfile hd]
    simp [Trace.append, Trace.empty]

/-- One call of `traverse` below the root on a path whose query fails. -/
theorem traverse_query_fails (fs : FS) (s : List Char) (fuel : Nat) (c : List Char)
    (h : fs.lstat c = none) :
    traverse fs s (fuel + 1) c false = some (⟨[c], [], [Diag.cannot_stat c]⟩, EXIT_FAILURE) := by
  unfold traverse
  simp only [Bool.false_eq_true, if_false]
  rw [h]

/-- One call of `traverse` on a directory that cannot be opened. -/
theorem traverse_open_fails (fs : FS) (s : List Char) (hs : is_valid_permissions (some s) = 1)
    (fuel : Nat) (c : List Char) (initial : Bool) (m : Nat)
    (h : (if initial then fs.stat c else fs.lstat c) = some m) (hd : S_ISDIR m = true)
    (ho : fs.opendir c = none) :
    traverse fs s (fuel + 1) c initial =
      some (⟨[c], if is_matching_permissions s m = some 1 then [c] else [],
        [Diag.cannot_open c]⟩, EXIT_FAILURE) := by
  obtain ⟨hit, hhit, hprinted⟩ := printed_eq s hs m c
  unfold traverse
  rw [h]
  dsimp only
  rw [hhit]
  dsimp only
  rw [if_pos hd, ho, hprinted]

/-- One step of the listing loop: the trace of the call for the child, then
the rest of the listing, whatever status the call returned. -/
theorem readdir_loop_step (call : List Char → Option (Trace × Nat)) (p n : List Char)
    (rest : List (List Char)) (t : Trace) (status : Nat)
    (hn : n ≠ ['.'] ∧ n ≠ ['.', '.']) (hfit : (joinPath p n).length < PATH_MAX)
    (hcall : call (joinPath p n) = some (t, status)) :
    readdir_loop call (if p = ['/'] then ['/'] else p ++ ['/']) (n :: rest) =
      (readdir_loop call (if p = ['/'] then ['/'] else p ++ ['/']) rest).map
        (fun after => t.append after) := by
  have happ : append_name (if p = ['/'] then ['/'] else p ++ ['/']) n = some (joinPath p n) := by
    rw [joinPath_eq_prefix_append] at hfit ⊢
    exact append_name_of_short _ _ hfit
  conv => lhs; unfold readdir_loop
  rw [if_pos hn, happ]
  dsimp only
  rw [hcall]
  dsimp only
  cases readdir_loop call (if p = ['/'] then ['/'] else p ++ ['/']) rest <;> rfl

theorem walkTrace_cons (s p name : List Char) (mode : Nat) (kids rest : Entries) :
    walkTrace s p (Entries.cons name mode kids rest) =
      ((Trace.mk [joinPath p name]
          (if is_matching_permissions s mode = some 1 then [joinPath p name] else [])
          []).append (walkTrace s (joinPath p name) kids)).append (walkTrace s p rest) := by
  unfold walkTrace Trace.append
  simp [allPaths, preorder, diagnostics, matching_cons, matching_append]

theorem walkTrace_gone (s p name : List Char) (rest : Entries) :
    walkTrace s p (Entries.gone name rest) =
      (Trace.mk [joinPath p name] [] [Diag.cannot_stat (joinPath p name)]).append
        (walkTrace s p rest) := by
  unfold walkTrace Trace.append
  simp [allPaths, preorder, diagnostics]

theorem walkTrace_locked (s p name : List Char) (mode : Nat) (rest : Entries) :
    walkTrace s p (Entries.locked name mode rest) =
      (Trace.mk [joinPath p name]
          (if is_matching_permissions s mode = some 1 then [joinPath p name] else [])
          [Diag.cannot_open (joinPath p name)]).append (walkTrace s p rest) := by
  unfold walkTrace Trace.append
  simp [allPaths, preorder, diagnostics, matching_cons]

/-- The listing loop over the entries `es` of the directory at `path`, as the
file system shows them, queries them all in pre-order, failing ones
included. -/
theorem readdir_loop_shows (fs : FS) (s : List Char) (hs : is_valid_permissions (some s) = 1)
    (es : Entries) :
    ∀ (path : List Char) (fuel : Nat), path.length < PATH_MAX → Shows fs path es →
      es.height ≤ fuel → (∀ n, n ∈ es.names → n ≠ ['.'] ∧ n ≠ ['.', '.']) →
      readdir_loop (fun child => traverse fs s fuel child false)
          (if path = ['/'] then ['/'] else path ++ ['/']) es.names =
        some (walkTrace s path es) := by
  induction es with
  | nil =>
    intro path fuel _ _ _ _
    rfl
  | cons name mode kids rest ihk ihr =>
    intro path fuel hshort hshow hfuel hnames
    unfold Shows at hshow
    obtain ⟨hl, hkids, hrest⟩ := hshow
    unfold Entries.height at hfuel
    have hcs := fs.lstat_short _ _ hl
    obtain ⟨fuel1, rfl⟩ : ∃ f, fuel = f + 1 := ⟨fuel - 1, by omega⟩
    have hchild := traverse_entry fs s hs fuel1 (joinPath path name) false mode
      (walkTrace s (joinPath path name) kids) (by simpa using hl)
      (fun hd => by
        rw [if_pos hd] at hkids
        obtain ⟨⟨names, ho, hn⟩, hsk⟩ := hkids
        refine ⟨names, _, ho, dir_prefix_of_short _ hcs, ?_⟩
        rw [readdir_loop_realNames, hn]
        exact ihk (joinPath path name) fuel1 hcs hsk (by omega) (mem_realNames hn))
      (fun hd => by
        rw [if_neg (by simp [hd])] at hkids
        subst hkids
        rfl)
    unfold Entries.names at hnames ⊢
    rw [readdir_loop_step _ path name _ _ _ (hnames name (List.mem_cons_self _ _)) hcs hchild,
      ihr path (fuel1 + 1) hshort hrest (by omega)
        (fun n hn => hnames n (List.mem_cons_of_mem _ hn)),
      walkTrace_cons]
    rfl
  | gone name rest ihr =>
    intro path fuel hshort hshow hfuel hnames
    unfold Shows at hshow
    obtain ⟨hl, hcs, hrest⟩ := hshow
    unfold Entries.height at hfuel
    obtain ⟨fuel1, rfl⟩ : ∃ f, fuel = f + 1 := ⟨fuel - 1, by omega⟩
    unfold Entries.names at hnames ⊢
    rw [readdir_loop_step _ path name _ _ _ (hnames name (List.mem_cons_self _ _)) hcs
        (traverse_query_fails fs s fuel1 _ hl),
      ihr path (fuel1 + 1) hshort hrest (by omega)
        (fun n hn => hnames n (List.mem_cons_of_mem _ hn)),
      walkTrace_gone]
    rfl
  | locked name mode rest ihr =>
    intro path fuel hshort hshow hfuel hnames
    unfold Shows at hshow
    obtain ⟨hl, hd, ho, hrest⟩ := hshow
    unfold Entries.height at hfuel
    have hcs := fs.lstat_short _ _ hl
    obtain ⟨fuel1, rfl⟩ : ∃ f, fuel = f + 1 := ⟨fuel - 1, by omega⟩
    unfold Entries.names at hnames ⊢
    rw [readdir_loop_step _ path name _ _ _ (hnames name (List.mem_cons_self _ _)) hcs
        (traverse_open_fails fs s hs fuel1 _ false mode (by simpa using hl) hd ho),
      ihr path (fuel1 + 1) hshort hrest (by omega)
        (fun n hn => hnames n (List.mem_cons_of_mem _ hn)),
      walkTrace_locked]
    rfl

/-- A call of `traverse` on an entry whose query succeeds and whose entries
the file system shows queries the entry and all below it in pre-order and
returns success, whatever fails below the entry. -/
theorem traverse_shows_at (fs : FS) (s : List Char)
    (hs : is_valid_permissions (some s) = 1) (p : List Char) (initial : Bool) (mode : Nat)
    (kids : Entries)
    (hq : (if initial then fs.stat p else fs.lstat p) = some mode)
    (hkids : if S_ISDIR mode then
        (∃ names, fs.opendir p = some names ∧ realNames names = kids.names) ∧ Shows fs p kids
      else kids = Entries.nil)
    (fuel : Nat) (hfuel : kids.height < fuel) :
    traverse fs s fuel p initial =
      some (⟨p :: allPaths p kids, matching s ((p, mode) :: preorder p kids),
        diagnostics p kids⟩, EXIT_SUCCESS) := by
  obtain ⟨fuel1, rfl⟩ : ∃ f, fuel = f + 1 := ⟨fuel - 1, by omega⟩
  have hshort : p.length < PATH_MAX := by
    cases initial with
    | true => exact fs.stat_short _ _ (by simpa using hq)
    | false => exact fs.lstat_short _ _ (by simpa using hq)
  have hroot := traverse_entry fs s hs fuel1 p initial mode (walkTrace s p kids) hq
    (fun hd => by
      rw [if_pos hd] at hkids
      obtain ⟨⟨names, ho, hn⟩, hsk⟩ := hkids
      refine ⟨names, _, ho, dir_prefix_of_short _ hshort, ?_⟩
      rw [readdir_loop_realNames, hn]
      exact readdir_loop_shows fs s hs kids p fuel1 hshort hsk (by omega) (mem_realNames hn))
    (fun hd => by
      rw [if_neg (by simp [hd])] at hkids
      subst hkids
      rfl)
  rw [hroot]
  unfold walkTrace Trace.append
  rw [matching_cons]
  rfl

/-- The walk from a root that the file system shows as a tree queries the
whole tree in pre-order and returns success, whatever fails below the
root. -/
theorem traverse_shows_root (fs : FS) (s : List Char)
    (hs : is_valid_permissions (some s) = 1) (root : List Char) (mode : Nat) (kids : Entries)
    (h : ShowsRoot fs root mode kids) (fuel : Nat) (hfuel : kids.height < fuel) :
    traverse fs s fuel root true =
      some (⟨root :: allPaths root kids, matching s (preorderRoot root mode kids),
        diagnostics root kids⟩, EXIT_SUCCESS) := by
  obtain ⟨fuel1, rfl⟩ : ∃ f, fuel = f + 1 := ⟨fuel - 1, by omega⟩
  obtain ⟨hstat, hkids⟩ := h
  have hshort := fs.stat_short _ _ hstat
  have hroot := traverse_entry fs s hs fuel1 root true mode (walkTrace s root kids)
    (by simpa using hstat)
    (fun hd => by
      rw [if_pos hd] at hkids
      obtain ⟨⟨names, ho, hn⟩, hsk⟩ := hkids
      refine ⟨names, _, ho, dir_prefix_of_short _ hshort, ?_⟩
      rw [readdir_loop_realNames, hn]
      exact readdir_loop_shows fs s hs kids root fuel1 hshort hsk (by omega) (mem_realNames hn))
    (fun hd => by
      rw [if_neg (by simp [hd])] at hkids
      subst hkids
      rfl)
  rw [hroot]
  unfold preorderRoot walkTrace Trace.append
  rw [matching_cons]
  rfl

theorem allPaths_of_allOk (es : Entries) :
    ∀ p : List Char, AllOk es → allPaths p es = (preorder p es).map Prod.fst := by
  induction es with
  | nil => intro p _; rfl
  | cons name mode kids rest ihk ihr =>
    intro p h
    unfold AllOk at h
    unfold allPaths preorder
    rw [ihk _ h.1, ihr _ h.2]
    simp
  | gone name rest _ => intro p h; exact absurd h (by unfold AllOk; exact not_false)
  | locked name mode rest _ => intro p h; exact absurd h (by unfold AllOk; exact not_false)

theorem diagnostics_of_allOk (es : Entries) :
    ∀ p : List Char, AllOk es → diagnostics p es = [] := by
  induction es with
  | nil => intro p _; rfl
  | cons name mode kids rest ihk ihr =>
    intro p h
    unfold AllOk at h
    unfold diagnostics
    rw [ihk _ h.1, ihr _ h.2]
    rfl
  | gone name rest _ => intro p h; exact absurd h (by unfold AllOk; exact not_false)
  | locked name mode rest _ => intro p h; exact absurd h (by unfold AllOk; exact not_false)

/-! ## The paths of a tree are distinct -/

theorem wellNamed_names (es : Entries) (h : WellNamed es) :
    ∀ n, n ∈ es.names → n ≠ [] ∧ '/' ∉ n := by
  induction es with
  | nil => intro n hn; cases hn
  | cons name mode kids rest _ ihr =>
    intro n hn
    unfold WellNamed at h
    unfold Entries.names at hn
    rcases List.mem_cons.1 hn with rfl | hn
    · exact ⟨h.1, h.2.1⟩
    · exact ihr h.2.2.2.2 n hn
  | gone name rest ihr =>
    intro n hn
    unfold WellNamed at h
    unfold Entries.names at hn
    rcases List.mem_cons.1 hn with rfl | hn
    · exact ⟨h.1, h.2.1⟩
    · exact ihr h.2.2.2 n hn
  | locked name mode rest ihr =>
    intro n hn
    unfold WellNamed at h
    unfold Entries.names at hn
    rcases List.mem_cons.1 hn with rfl | hn
    · exact ⟨h.1, h.2.1⟩
    · exact ihr h.2.2.2 n hn

/-- Two slash-free names followed by nothing or by a slash and more: when the
results are equal the names are. -/
theorem name_eq_of_append_eq (n : List Char) :
    ∀ (n1 t t1 : List Char), '/' ∉ n → '/' ∉ n1 →
      (t = [] ∨ ∃ u, t = '/' :: u) → (t1 = [] ∨ ∃ u, t1 = '/' :: u) →
      n ++ t = n1 ++ t1 → n = n1 := by
  induction n with
  | nil =>
    intro n1 t t1 _ hn1 ht _ heq
    cases n1 with
    | nil => rfl
    | cons c n2 =>
      rcases ht with rfl | ⟨u, rfl⟩
      · cases heq
      · simp only [List.nil_append, List.cons_append, List.cons.injEq] at heq
        exact absurd (heq.1 ▸ List.mem_cons_self c n2) hn1
  | cons a n0 ih =>
    intro n1 t t1 hn hn1 ht ht1 heq
    cases n1 with
    | nil =>
      rcases ht1 with rfl | ⟨u, rfl⟩
      · cases heq
      · simp only [List.nil_append, List.cons_append, List.cons.injEq] at heq
        exact absurd (heq.1 ▸ List.mem_cons_self a n0) hn
    | cons c n2 =>
      simp only [List.cons_append, List.cons.injEq] at heq
      have hn0 : '/' ∉ n0 := fun hmem => hn (List.mem_cons_of_mem _ hmem)
      have hn2 : '/' ∉ n2 := fun hmem => hn1 (List.mem_cons_of_mem _ hmem)
      rw [heq.1, ih n2 t t1 hn0 hn2 ht ht1 heq.2]

theorem joinPath_ne_slash (p n : List Char) (hn : n ≠ []) : joinPath p n ≠ ['/'] := by
  intro h
  have hlen := congrArg List.length h
  have hpos : 0 < n.length := List.length_pos.2 hn
  unfold joinPath at hlen
  split at hlen
  · simp only [List.length_cons, List.length_nil] at hlen
    omega
  · simp only [List.length_append, List.length_cons, List.length_nil] at hlen
    omega

/-- Every path under `p` is the prefix of `p`, the name of an entry of `p`,
and then nothing or a slash and more. -/
theorem allPaths_shape (es : Entries) :
    ∀ (p x : List Char), WellNamed es → x ∈ allPaths p es →
      ∃ n t, n ∈ es.names ∧ x = (if p = ['/'] then ['/'] else p ++ ['/']) ++ n ++ t ∧
        (t = [] ∨ ∃ u, t = '/' :: u) := by
  induction es with
  | nil => intro p x _ hx; cases hx
  | cons name mode kids rest ihk ihr =>
    intro p x hw hx
    unfold WellNamed at hw
    obtain ⟨hne, _, _, hwk, hwr⟩ := hw
    unfold allPaths at hx
    simp only [List.mem_cons, List.mem_append] at hx
    unfold Entries.names
    rcases hx with hx | hx | hx
    · refine ⟨name, [], List.mem_cons_self _ _, ?_, Or.inl rfl⟩
      rw [hx, joinPath_eq_prefix_append, List.append_nil]
    · obtain ⟨n, t, _, hxeq, _⟩ := ihk (joinPath p name) x hwk hx
      rw [if_neg (joinPath_ne_slash p name hne)] at hxeq
      refine ⟨name, '/' :: (n ++ t), List.mem_cons_self _ _, ?_, Or.inr ⟨_, rfl⟩⟩
      rw [hxeq, joinPath_eq_prefix_append]
      simp only [List.append_assoc, List.cons_append, List.nil_append]
    · obtain ⟨n, t, hn, hxeq, ht⟩ := ihr p x hwr hx
      exact ⟨n, t, List.mem_cons_of_mem _ hn, hxeq, ht⟩
  | gone name rest ihr =>
    intro p x hw hx
    unfold WellNamed at hw
    unfold allPaths at hx
    unfold Entries.names
    rcases List.mem_cons.1 hx with hx | hx
    · refine ⟨name, [], List.mem_cons_self _ _, ?_, Or.inl rfl⟩
      rw [hx, joinPath_eq_prefix_append, List.append_nil]
    · obtain ⟨n, t, hn, hxeq, ht⟩ := ihr p x hw.2.2.2 hx
      exact ⟨n, t, List.mem_cons_of_mem _ hn, hxeq, ht⟩
  | locked name mode rest ihr =>
    intro p x hw hx
    unfold WellNamed at hw
    unfold allPaths at hx
    unfold Entries.names
    rcases List.mem_cons.1 hx with hx | hx
    · refine ⟨name, [], List.mem_cons_self _ _, ?_, Or.inl rfl⟩
      rw [hx, joinPath_eq_prefix_append, List.append_nil]
    · obtain ⟨n, t, hn, hxeq, ht⟩ := ihr p x hw.2.2.2 hx
      exact ⟨n, t, List.mem_cons_of_mem _ hn, hxeq, ht⟩

theorem allPaths_longer (es : Entries) (p x : List Char) (hw : WellNamed es)
    (hx : x ∈ allPaths p es) : p.length < x.length := by
  obtain ⟨n, t, hn, hxeq, _⟩ := allPaths_shape es p x hw hx
  have hpos : 0 < n.length := List.length_pos.2 (wellNamed_names es hw n hn).1
  rw [hxeq]
  split
  · rename_i hp
    subst hp
    simp only [List.length_append, List.length_cons, List.length_nil]
    omega
  · simp only [List.length_append, List.length_cons, List.length_nil]
    omega

/-- The path of an entry is not among the paths of the entries listed after
it, nor is any path beneath it. -/
theorem allPaths_rest_ne (rest : Entries) (p name : List Char) (hwr : WellNamed rest)
    (hslash : '/' ∉ name) (hfresh : name ∉ rest.names) :
    ∀ x, x ∈ allPaths p rest → ∀ t, (t = [] ∨ ∃ u, t = '/' :: u) →
      x ≠ (if p = ['/'] then ['/'] else p ++ ['/']) ++ name ++ t := by
  intro x hx t ht heq
  obtain ⟨n1, t1, hn1, hxeq, ht1⟩ := allPaths_shape rest p x hwr hx
  rw [heq, List.append_assoc, List.append_assoc] at hxeq
  have hcancel := List.append_cancel_left hxeq
  have := name_eq_of_append_eq name n1 t t1 hslash (wellNamed_names rest hwr n1 hn1).2
    ht ht1 hcancel
  exact hfresh (this ▸ hn1)

/-- In a well-named tree no path occurs twice. -/
theorem allPaths_nodup (es : Entries) :
    ∀ p : List Char, WellNamed es → (allPaths p es).Nodup := by
  induction es with
  | nil => intro p _; exact List.nodup_nil
  | cons name mode kids rest ihk ihr =>
    intro p hw
    unfold WellNamed at hw
    obtain ⟨hne, hslash, hfresh, hwk, hwr⟩ := hw
    unfold allPaths
    have hrest := allPaths_rest_ne rest p name hwr hslash hfresh
    rw [List.nodup_cons]
    constructor
    · intro hmem
      rcases List.mem_append.1 hmem with hk | hr
      · have := allPaths_longer kids (joinPath p name) _ hwk hk
        omega
      · refine hrest _ hr [] (Or.inl rfl) ?_
        rw [joinPath_eq_prefix_append, List.append_nil]
    · rw [List.nodup_append]
      refine ⟨ihk _ hwk, ihr p hwr, ?_⟩
      intro x hk hr
      obtain ⟨n, t, _, hxeq, _⟩ := allPaths_shape kids (joinPath p name) x hwk hk
      rw [if_neg (joinPath_ne_slash p name hne)] at hxeq
      refine hrest x hr ('/' :: (n ++ t)) (Or.inr ⟨_, rfl⟩) ?_
      rw [hxeq, joinPath_eq_prefix_append]
      simp only [List.append_assoc, List.cons_append, List.nil_append]
  | gone name rest ihr =>
    intro p hw
    unfold WellNamed at hw
    obtain ⟨_, hslash, hfresh, hwr⟩ := hw
    unfold allPaths
    rw [List.nodup_cons]
    refine ⟨fun hr => ?_, ihr p hwr⟩
    refine allPaths_rest_ne rest p name hwr hslash hfresh _ hr [] (Or.inl rfl) ?_
    rw [joinPath_eq_prefix_append, List.append_nil]
  | locked name mode rest ihr =>
    intro p hw
    unfold WellNamed at hw
    obtain ⟨_, hslash, hfresh, hwr⟩ := hw
    unfold allPaths
    rw [List.nodup_cons]
    refine ⟨fun hr => ?_, ihr p hwr⟩
    refine allPaths_rest_ne rest p name hwr hslash hfresh _ hr [] (Or.inl rfl) ?_
    rw [joinPath_eq_prefix_append, List.append_nil]

theorem rootPaths_nodup (root : List Char) (kids : Entries) (hw : WellNamed kids) :
    (root :: allPaths root kids).Nodup := by
  rw [List.nodup_cons]
  refine ⟨fun hmem => ?_, allPaths_nodup kids root hw⟩
  have := allPaths_longer kids root root hw hmem
  omega

theorem fsLinks_shows : ShowsRoot fsLinks "/r".toList 0o040755 kidsLinks := by
  refine ⟨by decide, ?_⟩
  rw [if_pos (by decide)]
  refine ⟨⟨[".".toList, "..".toList, "up".toList, "f".toList], by decide, by decide⟩, ?_⟩
  unfold kidsLinks Shows
  refine ⟨by decide, ?_, ?_⟩
  · rw [if_neg (by decide)]
  · unfold Shows
    refine ⟨by decide, ?_, trivial⟩
    rw [if_neg (by decide)]

theorem kidsLinks_wellNamed : WellNamed kidsLinks := by
  unfold kidsLinks WellNamed
  refine ⟨by decide, by decide, by decide, trivial, ?_⟩
  unfold WellNamed
  exact ⟨by decide, by decide, by decide, trivial, trivial⟩

theorem kidsLinks_allOk : AllOk kidsLinks := by
  unfold kidsLinks AllOk
  refine ⟨trivial, ?_⟩
  unfold AllOk
  exact ⟨trivial, trivial⟩

theorem fsFail_shows : ShowsRoot fsFail "/tmp/t".toList 0o040755 kidsFail := by
  refine ⟨by decide, ?_⟩
  rw [if_pos (by decide)]
  refine ⟨⟨[".".toList, "..".toList, "a".toList, "d".toList, "b".toList],
    by decide, by decide⟩, ?_⟩
  unfold kidsFail Shows
  refine ⟨by decide, by decide, ?_⟩
  unfold Shows
  refine ⟨by decide, by decide, by decide, ?_⟩
  unfold Shows
  refine ⟨by decide, ?_, trivial⟩
  rw [if_neg (by decide)]

/-- C3: in a file system that refuses paths of `PATH_MAX` bytes or more,
when the file system shows a tree at the root, every query of an entry and
every opening of a directory of the tree succeeds, and the permission string
is accepted, `traverse(root, s, 1)` returns success with any fuel above the
height of the tree; the paths it queries are exactly the entries of the tree
in depth-first pre-order (the root first, siblings in listing order, "." and
".." left out), one query for each entry; the lines it prints are exactly
the paths of that listing whose mode matches, in that order; it prints no
diagnostic.  When the names of the tree are those of a file system (none
empty or with a slash, no two alike in one directory) no path occurs twice
in the listing. -/
theorem traverse_preorder (fs : FS) (s : List Char) (root : List Char) (mode : Nat)
    (kids : Entries) (hs : is_valid_permissions (some s) = 1)
    (h : ShowsRoot fs root mode kids) (hok : AllOk kids) :
    (∀ fuel, kids.height < fuel →
      traverse fs s fuel root true =
        some (⟨(preorderRoot root mode kids).map Prod.fst,
               matching s (preorderRoot root mode kids), []⟩, EXIT_SUCCESS)) ∧
    (WellNamed kids → ((preorderRoot root mode kids).map Prod.fst).Nodup) := by
  have hpaths : (preorderRoot root mode kids).map Prod.fst = root :: allPaths root kids := by
    unfold preorderRoot
    rw [List.map_cons, allPaths_of_allOk kids root hok]
  constructor
  · intro fuel hfuel
    rw [traverse_shows_root fs s hs root mode kids h fuel hfuel, hpaths,
      diagnostics_of_allOk kids root hok]
  · intro hw
    rw [hpaths]
    exact rootPaths_nodup root kids hw

/-- Witness of C3: the tree of `fsLinks` and the string "rwxrwxrwx". -/
theorem traverse_preorder_witness :
    is_valid_permissions (some "rwxrwxrwx".toList) = 1 ∧
    ShowsRoot fsLinks "/r".toList 0o040755 kidsLinks ∧
    AllOk kidsLinks ∧
    traverse fsLinks "rwxrwxrwx".toList 2 "/r".toList true =
      some (⟨["/r".toList, "/r/up".toList, "/r/f".toList], ["/r/up".toList], []⟩,
        EXIT_SUCCESS) ∧
    ["/r".toList, "/r/up".toList, "/r/f".toList].Nodup :=
  have h := traverse_preorder fsLinks "rwxrwxrwx".toList "/r".toList 0o040755 kidsLinks
    (by decide) fsLinks_shows kidsLinks_allOk
  ⟨by decide, fsLinks_shows, kidsLinks_allOk, h.1 2 (by decide), h.2 kidsLinks_wellNamed⟩

theorem S_ISLNK_not_dir (m : Nat) (h : S_ISLNK m = true) : S_ISDIR m = false := by
  unfold S_ISLNK at h
  unfold S_ISDIR
  have h1 : m &&& S_IFMT = S_IFLNK := by simpa using h
  rw [h1]
  decide

/-- C4: the root is examined with `stat` and every other entry with `lstat`.
First, a root whose own mode (`lstat`) is that of a symbolic link and behind
which `stat` finds a directory tree is listed and walked as that tree.
Second, independently of any root: below the root, an entry whose own mode is
that of a symbolic link is matched on that mode and ends its call there, with
success and no query beneath it, whatever `stat` and `opendir` would answer
for its path. -/
theorem traverse_symlinks (fs : FS) (s : List Char)
    (hs : is_valid_permissions (some s) = 1) :
    (∀ (root : List Char) (linkmode mode : Nat) (kids : Entries) (fuel : Nat),
      fs.lstat root = some linkmode → S_ISLNK linkmode = true → S_ISDIR mode = true →
      ShowsRoot fs root mode kids → kids.height < fuel →
      traverse fs s fuel root true =
        some (⟨root :: allPaths root kids, matching s (preorderRoot root mode kids),
          diagnostics root kids⟩, EXIT_SUCCESS)) ∧
    (∀ (p : List Char) (plink : Nat) (fuel1 : Nat),
      fs.lstat p = some plink → S_ISLNK plink = true →
      traverse fs s (fuel1 + 1) p false =
        some (⟨[p], if is_matching_permissions s plink = some 1 then [p] else [], []⟩,
          EXIT_SUCCESS)) := by
  constructor
  · intro root linkmode mode kids fuel _ _ _ hshow hfuel
    exact traverse_shows_root fs s hs root mode kids hshow fuel hfuel
  · intro p plink fuel1 hp hplink
    have h := traverse_entry fs s hs fuel1 p false plink Trace.empty (by simpa using hp)
      (fun hd => by rw [S_ISLNK_not_dir plink hplink] at hd; cases hd) (fun _ => rfl)
    rw [h]
    simp [Trace.append, Trace.empty]

/-- Witness of C4: in `fsLinks` the root /r is a symbolic link to a directory
and /r/up is a symbolic link back to /r; in `fsSelfLink`, a plain directory,
/d/self is a symbolic link to itself. -/
theorem traverse_symlinks_witness :
    fsLinks.lstat "/r".toList = some 0o120777 ∧
    fsLinks.stat "/r/up".toList = some 0o040755 ∧
    traverse fsLinks "rwxrwxrwx".toList 2 "/r".toList true =
        some (⟨["/r".toList, "/r/up".toList, "/r/f".toList], ["/r/up".toList], []⟩,
          EXIT_SUCCESS) ∧
    traverse fsLinks "rwxrwxrwx".toList 5 "/r/up".toList false =
        some (⟨["/r/up".toList], ["/r/up".toList], []⟩, EXIT_SUCCESS) ∧
    fsSelfLink.stat "/d/self".toList = none ∧
    traverse fsSelfLink "rwxrwxrwx".toList 1 "/d/self".toList false =
        some (⟨["/d/self".toList], ["/d/self".toList], []⟩, EXIT_SUCCESS) ∧
    traverse fsSelfLink "rwxrwxrwx".toList 2 "/d".toList true =
        some (⟨["/d".toList, "/d/self".toList], ["/d/self".toList], []⟩, EXIT_SUCCESS) :=
  ⟨by decide, by decide,
    (traverse_symlinks fsLinks "rwxrwxrwx".toList (by decide)).1 "/r".toList 0o120777
      0o040755 kidsLinks 2 (by decide) (by decide) (by decide) fsLinks_shows (by decide),
    (traverse_symlinks fsLinks "rwxrwxrwx".toList (by decide)).2 "/r/up".toList 0o120777 4
      (by decide) (by decide),
    by decide,
    (traverse_symlinks fsSelfLink "rwxrwxrwx".toList (by decide)).2 "/d/self".toList
      0o120777 0 (by decide) (by decide),
    by decide⟩

/-! ## Failures during the walk -/

/-- C5, as amended, in three independent parts.  For a tree the file system
shows at the root, where every entry's path is shorter than `PATH_MAX`, the
query and the opening of the root succeed, and entries anywhere below the
root may fail: `traverse(root, s, 1)` returns `EXIT_SUCCESS` with any fuel
above the height of the tree, the failures being reported on the error
channel only, one diagnostic for each.  For a root whose query fails it
returns `EXIT_FAILURE`.  For a root that is a directory that cannot be
opened it returns `EXIT_FAILURE`. -/
theorem traverse_status (fs : FS) (s : List Char)
    (hs : is_valid_permissions (some s) = 1) :
    (∀ (root : List Char) (mode : Nat) (kids : Entries) (fuel : Nat),
      ShowsRoot fs root mode kids → kids.height < fuel →
      (traverse fs s fuel root true).map Prod.snd = some EXIT_SUCCESS ∧
      (traverse fs s fuel root true).map (fun r => r.1.err) =
        some (diagnostics root kids)) ∧
    (∀ (absent : List Char) (fuel : Nat), fs.stat absent = none →
      traverse fs s (fuel + 1) absent true =
        some (⟨[absent], [], [Diag.cannot_stat absent]⟩, EXIT_FAILURE)) ∧
    (∀ (closed : List Char) (cmode : Nat) (fuel : Nat),
      fs.stat closed = some cmode → S_ISDIR cmode = true → fs.opendir closed = none →
      traverse fs s (fuel + 1) closed true =
        some (⟨[closed], if is_matching_permissions s cmode = some 1 then [closed] else [],
          [Diag.cannot_open closed]⟩, EXIT_FAILURE)) := by
  refine ⟨?_, ?_, ?_⟩
  · intro root mode kids fuel h hfuel
    rw [traverse_shows_root fs s hs root mode kids h fuel hfuel]
    exact ⟨rfl, rfl⟩
  · intro absent fuel habsent
    unfold traverse
    simp only [if_true]
    rw [habsent]
  · intro closed cmode fuel hclosed hcdir hcopen
    exact traverse_open_fails fs s hs fuel closed true cmode (by simpa using hclosed) hcdir
      hcopen

/-- Witness of C5 as amended: the tree of `fsFail` under /tmp/t, the absent
root /gone, and /tmp/t/d as a root that cannot be opened. -/
theorem traverse_status_witness :
    ShowsRoot fsFail "/tmp/t".toList 0o040755 kidsFail ∧
    ((traverse fsFail "rw-r--r--".toList 2 "/tmp/t".toList true).map Prod.snd =
      some EXIT_SUCCESS ∧
    (traverse fsFail "rw-r--r--".toList 2 "/tmp/t".toList true).map (fun r => r.1.err) =
      some (diagnostics "/tmp/t".toList kidsFail)) ∧
    traverse fsFail "rw-r--r--".toList 1 "/gone".toList true =
      some (⟨["/gone".toList], [], [Diag.cannot_stat "/gone".toList]⟩, EXIT_FAILURE) ∧
    traverse fsFail "rw-r--r--".toList 1 "/tmp/t/d".toList true =
      some (⟨["/tmp/t/d".toList],
        if is_matching_permissions "rw-r--r--".toList 0o040700 = some 1
          then ["/tmp/t/d".toList] else [],
        [Diag.cannot_open "/tmp/t/d".toList]⟩, EXIT_FAILURE) :=
  ⟨fsFail_shows,
    (traverse_status fsFail "rw-r--r--".toList (by decide)).1 "/tmp/t".toList 0o040755
      kidsFail 2 fsFail_shows (by decide),
    (traverse_status fsFail "rw-r--r--".toList (by decide)).2.1 "/gone".toList 0 (by decide),
    (traverse_status fsFail "rw-r--r--".toList (by decide)).2.2 "/tmp/t/d".toList 0o040700 0
      (by decide) (by decide) (by decide)⟩

/-- C5 as stated fails: in `fsFail` the query of /tmp/t/a fails and the
directory /tmp/t/d cannot be opened, both diagnostics are printed, and the
call `traverse("/tmp/t", "rw-r--r--", 1)` returns `EXIT_SUCCESS`. -/
theorem traverse_failure_status_lost :
    traverse fsFail "rw-r--r--".toList 2 "/tmp/t".toList true =
      some (⟨["/tmp/t".toList, "/tmp/t/a".toList, "/tmp/t/d".toList, "/tmp/t/b".toList],
             ["/tmp/t/b".toList],
             [Diag.cannot_stat "/tmp/t/a".toList, Diag.cannot_open "/tmp/t/d".toList]⟩,
        EXIT_SUCCESS) := by
  decide

/-- C6, as amended, in two independent parts.  A failing query of the root
ends the walk at once: the root is the only path queried.  For a tree the
file system shows at the root, where every entry's path is shorter than
`PATH_MAX` and entries anywhere below the root may fail (a query that fails,
a directory that cannot be opened): a failure ends only the call for the
failing entry, and the walk goes on with the entries listed after it.  Every
entry of the tree is queried, in pre-order; the lines printed are the
matching paths of the pre-order listing of all the entries whose query
succeeds (the matches before a failure, then the matches after it); and
there is one diagnostic for each failing entry, naming its path. -/
theorem walk_goes_on_after_failure (fs : FS) (s : List Char)
    (hs : is_valid_permissions (some s) = 1) :
    (∀ (root : List Char) (mode : Nat) (kids : Entries) (fuel : Nat),
      ShowsRoot fs root mode kids → kids.height < fuel →
      (traverse fs s fuel root true).map Prod.fst =
        some ⟨root :: allPaths root kids, matching s (preorderRoot root mode kids),
          diagnostics root kids⟩) ∧
    (∀ (absent : List Char) (fuel : Nat), fs.stat absent = none →
      (traverse fs s (fuel + 1) absent true).map Prod.fst =
        some ⟨[absent], [], [Diag.cannot_stat absent]⟩) := by
  constructor
  · intro root mode kids fuel h hfuel
    rw [traverse_shows_root fs s hs root mode kids h fuel hfuel]
    rfl
  · intro absent fuel habsent
    unfold traverse
    simp only [if_true]
    rw [habsent]
    rfl

/-- Witness of C6 as amended: the tree of `fsFail` under /tmp/t, whose
entries are `a` (query fails), `d` (cannot be opened) and the file `b`. -/
theorem walk_goes_on_after_failure_witness :
    ShowsRoot fsFail "/tmp/t".toList 0o040755 kidsFail ∧
    "/tmp/t".toList :: allPaths "/tmp/t".toList kidsFail =
      ["/tmp/t".toList, "/tmp/t/a".toList, "/tmp/t/d".toList, "/tmp/t/b".toList] ∧
    matching "rw-r--r--".toList (preorderRoot "/tmp/t".toList 0o040755 kidsFail) =
      ["/tmp/t/b".toList] ∧
    diagnostics "/tmp/t".toList kidsFail =
      [Diag.cannot_stat "/tmp/t/a".toList, Diag.cannot_open "/tmp/t/d".toList] ∧
    (traverse fsFail "rw-r--r--".toList 2 "/tmp/t".toList true).map Prod.fst =
      some ⟨"/tmp/t".toList :: allPaths "/tmp/t".toList kidsFail,
        matching "rw-r--r--".toList (preorderRoot "/tmp/t".toList 0o040755 kidsFail),
        diagnostics "/tmp/t".toList kidsFail⟩ ∧
    (traverse fsFail "rw-r--r--".toList 1 "/gone".toList true).map Prod.fst =
      some ⟨["/gone".toList], [], [Diag.cannot_stat "/gone".toList]⟩ :=
  ⟨fsFail_shows, by decide, by decide, by decide,
    (walk_goes_on_after_failure fsFail "rw-r--r--".toList (by decide)).1 "/tmp/t".toList
      0o040755 kidsFail 2 fsFail_shows (by decide),
    (walk_goes_on_after_failure fsFail "rw-r--r--".toList (by decide)).2 "/gone".toList 0
      (by decide)⟩

/-- C6 as stated fails: in `fsFail` the query of /tmp/t/a fails, and the
entries /tmp/t/d and /tmp/t/b, which come after it, are still queried and
/tmp/t/b is printed; what is printed before the failure is nothing. -/
theorem traverse_continues_after_failure :
    fsFail.lstat "/tmp/t/a".toList = none ∧
    (traverse fsFail "rw-r--r--".toList 2 "/tmp/t".toList true).map
        (fun r => (r.1.visited, r.1.out)) =
      some (["/tmp/t".toList, "/tmp/t/a".toList, "/tmp/t/d".toList, "/tmp/t/b".toList],
            ["/tmp/t/b".toList]) ∧
    (traverse fsFail "rw-r--r--".toList 2 "/tmp/t".toList true).map (fun r => r.1.out) ≠
      some [] := by
  decide

/-! ## The end-to-end scenario -/

theorem land_flag (m i : Nat) (hi : i < 9) :
    (m &&& 0o777) &&& (0o400 >>> i) = m &&& (0o400 >>> i) := by
  have hall : ∀ k, k < 9 → 0o777 &&& (0o400 >>> k) = 0o400 >>> k := by decide
  rw [Nat.land_assoc, hall i hi]

theorem is_matching_loop_mask (s : List Char) (m n i : Nat) (h : i + n ≤ 9) :
    is_matching_loop s m n i = is_matching_loop s (m &&& 0o777) n i := by
  induction n generalizing i with
  | zero => rfl
  | succ n ih =>
    unfold is_matching_loop
    rw [P_FLAG_get? i (by omega)]
    dsimp only
    rw [land_flag m i (by omega), ih (i + 1) (by omega)]

/-- The matcher looks at the nine permission bits of the mode only. -/
theorem is_matching_of_bits (s : List Char) (m bits : Nat) (hlen : s.length ≤ 9)
    (hm : m &&& 0o777 = bits) :
    is_matching_permissions s m = is_matching_permissions s bits := by
  unfold is_matching_permissions
  rw [is_matching_loop_mask s m s.length 0 (by omega), hm]

/-- The scenario, as a tree shown at /tmp/t. -/
theorem scenario_shows (fs : FS) (mt ma mb mc : Nat) (h : Scenario fs mt ma mb mc) :
    ∃ kids, ShowsRoot fs "/tmp/t".toList mt kids ∧ kids.height = 2 ∧
      ∀ s, s.length ≤ 9 →
        matching s (preorder "/tmp/t".toList kids) =
          (if is_matching_permissions s 0o644 = some 1 then ["/tmp/t/a".toList] else []) ++
          (if is_matching_permissions s 0o755 = some 1 then ["/tmp/t/b".toList] else []) ++
          (if is_matching_permissions s 0o600 = some 1 then ["/tmp/t/b/c".toList] else []) ∨
        matching s (preorder "/tmp/t".toList kids) =
          (if is_matching_permissions s 0o755 = some 1 then ["/tmp/t/b".toList] else []) ++
          (if is_matching_permissions s 0o600 = some 1 then ["/tmp/t/b/c".toList] else []) ++
          (if is_matching_permissions s 0o644 = some 1 then ["/tmp/t/a".toList] else []) := by
  obtain ⟨hst, hdt, ⟨names, hot, horder⟩, hla, hda, hba, hlb, hdb, hbb, ⟨namesb, hob, hnb⟩,
    hlc, hdc, hbc⟩ := h
  have hja : joinPath "/tmp/t".toList "a".toList = "/tmp/t/a".toList := by decide
  have hjb : joinPath "/tmp/t".toList "b".toList = "/tmp/t/b".toList := by decide
  have hjc : joinPath "/tmp/t/b".toList "c".toList = "/tmp/t/b/c".toList := by decide
  have hshowc : Shows fs "/tmp/t/b".toList (Entries.cons "c".toList mc Entries.nil Entries.nil) := by
    unfold Shows
    rw [hjc]
    refine ⟨hlc, ?_, trivial⟩
    rw [if_neg (by simp [hdc])]
  rcases horder with hab | hba'
  · refine ⟨Entries.cons "a".toList ma Entries.nil
      (Entries.cons "b".toList mb (Entries.cons "c".toList mc Entries.nil Entries.nil)
        Entries.nil), ⟨hst, ?_⟩, by simp [Entries.height], ?_⟩
    · rw [if_pos hdt]
      refine ⟨⟨names, hot, hab⟩, ?_⟩
      unfold Shows
      rw [hja]
      refine ⟨hla, ?_, ?_⟩
      · rw [if_neg (by simp [hda])]
      · unfold Shows
        rw [hjb]
        refine ⟨hlb, ?_, trivial⟩
        rw [if_pos hdb]
        exact ⟨⟨namesb, hob, hnb⟩, hshowc⟩
    · intro s hlen
      left
      simp only [preorder, hja, hjb, hjc, List.nil_append, List.append_nil, List.cons_append,
        matching_cons, is_matching_of_bits s ma _ hlen hba, is_matching_of_bits s mb _ hlen hbb,
        is_matching_of_bits s mc _ hlen hbc]
      simp [matching]
  · refine ⟨Entries.cons "b".toList mb (Entries.cons "c".toList mc Entries.nil Entries.nil)
      (Entries.cons "a".toList ma Entries.nil Entries.nil), ⟨hst, ?_⟩,
      by simp [Entries.height], ?_⟩
    · rw [if_pos hdt]
      refine ⟨⟨names, hot, hba'⟩, ?_⟩
      unfold Shows
      rw [hjb]
      refine ⟨hlb, ?_, ?_⟩
      · rw [if_pos hdb]
        exact ⟨⟨namesb, hob, hnb⟩, hshowc⟩
      · unfold Shows
        rw [hja]
        refine ⟨hla, ?_, trivial⟩
        rw [if_neg (by simp [hda])]
    · intro s hlen
      right
      simp only [preorder, hja, hjb, hjc, List.nil_append, List.append_nil, List.cons_append,
        matching_cons, is_matching_of_bits s ma _ hlen hba, is_matching_of_bits s mb _ hlen hbb,
        is_matching_of_bits s mc _ hlen hbc]
      simp [matching]

/-- What the walk of the scenario prints for an accepted string: /tmp/t when
its own mode matches, then the matching entries below it. -/
theorem scenario_printed (fs : FS) (mt ma mb mc : Nat) (h : Scenario fs mt ma mb mc)
    (s : List Char) (hs : is_valid_permissions (some s) = 1) (fuel : Nat) (hfuel : 3 ≤ fuel)
    (line : List Char)
    (h1 : (if is_matching_permissions s 0o644 = some 1 then ["/tmp/t/a".toList] else []) ++
          (if is_matching_permissions s 0o755 = some 1 then ["/tmp/t/b".toList] else []) ++
          (if is_matching_permissions s 0o600 = some 1 then ["/tmp/t/b/c".toList] else []) =
            [line])
    (h2 : (if is_matching_permissions s 0o755 = some 1 then ["/tmp/t/b".toList] else []) ++
          (if is_matching_permissions s 0o600 = some 1 then ["/tmp/t/b/c".toList] else []) ++
          (if is_matching_permissions s 0o644 = some 1 then ["/tmp/t/a".toList] else []) =
            [line]) :
    printed (traverse fs s fuel "/tmp/t".toList true) =
      some ((if is_matching_permissions s mt = some 1 then ["/tmp/t".toList] else []) ++
        [line]) := by
  obtain ⟨kids, hshow, hheight, hmatch⟩ := scenario_shows fs mt ma mb mc h
  have hlen : s.length ≤ 9 := by
    have := ((valid_iff s).1 hs).1
    omega
  rw [traverse_shows_root fs s hs _ mt kids hshow fuel (by omega)]
  unfold printed preorderRoot
  rw [matching_cons]
  rcases hmatch s hlen with hm | hm
  · rw [hm, h1]; rfl
  · rw [hm, h2]; rfl

/-- C7, as amended: in every file system that holds the scenario, whatever
the order in which /tmp/t lists `a` and `b`, `traverse("/tmp/t", s, 1)` prints
for "rw-r--r--" the line /tmp/t/a, for "rwxr-xr-x" the line /tmp/t/b and for
"rw-------" the line /tmp/t/b/c, in each case after the line /tmp/t when the
mode of /tmp/t itself matches the string, and nothing else. -/
theorem traverse_scenario (fs : FS) (mt ma mb mc : Nat) (fuel : Nat)
    (h : Scenario fs mt ma mb mc) (hfuel : 3 ≤ fuel) :
    printed (traverse fs "rw-r--r--".toList fuel "/tmp/t".toList true) =
      some ((if is_matching_permissions "rw-r--r--".toList mt = some 1
              then ["/tmp/t".toList] else []) ++ ["/tmp/t/a".toList]) ∧
    printed (traverse fs "rwxr-xr-x".toList fuel "/tmp/t".toList true) =
      some ((if is_matching_permissions "rwxr-xr-x".toList mt = some 1
              then ["/tmp/t".toList] else []) ++ ["/tmp/t/b".toList]) ∧
    printed (traverse fs "rw-------".toList fuel "/tmp/t".toList true) =
      some ((if is_matching_permissions "rw-------".toList mt = some 1
              then ["/tmp/t".toList] else []) ++ ["/tmp/t/b/c".toList]) := by
  refine ⟨?_, ?_, ?_⟩
  · exact scenario_printed fs mt ma mb mc h _ (by decide) fuel hfuel _ (by decide) (by decide)
  · exact scenario_printed fs mt ma mb mc h _ (by decide) fuel hfuel _ (by decide) (by decide)
  · exact scenario_printed fs mt ma mb mc h _ (by decide) fuel hfuel _ (by decide) (by decide)

theorem fsScenario_holds : Scenario fsScenario 0o040755 0o100644 0o040755 0o100600 := by
  unfold Scenario
  refine ⟨by decide, by decide, ⟨[".".toList, "..".toList, "a".toList, "b".toList],
    by decide, Or.inl (by decide)⟩, by decide, by decide, by decide, by decide, by decide,
    by decide, ⟨[".".toList, "..".toList, "c".toList], by decide, by decide⟩, by decide,
    by decide, by decide⟩

/-- Witness of C7 as amended: the scenario in `fsScenario`. -/
theorem traverse_scenario_witness :
    Scenario fsScenario 0o040755 0o100644 0o040755 0o100600 ∧
    (printed (traverse fsScenario "rw-r--r--".toList 3 "/tmp/t".toList true) =
      some ((if is_matching_permissions "rw-r--r--".toList 0o040755 = some 1
              then ["/tmp/t".toList] else []) ++ ["/tmp/t/a".toList]) ∧
    printed (traverse fsScenario "rwxr-xr-x".toList 3 "/tmp/t".toList true) =
      some ((if is_matching_permissions "rwxr-xr-x".toList 0o040755 = some 1
              then ["/tmp/t".toList] else []) ++ ["/tmp/t/b".toList]) ∧
    printed (traverse fsScenario "rw-------".toList 3 "/tmp/t".toList true) =
      some ((if is_matching_permissions "rw-------".toList 0o040755 = some 1
              then ["/tmp/t".toList] else []) ++ ["/tmp/t/b/c".toList])) :=
  ⟨fsScenario_holds,
    traverse_scenario fsScenario 0o040755 0o100644 0o040755 0o100600 3 fsScenario_holds
      (by decide)⟩

/-- C7 as stated fails: `fsScenario` holds the scenario, /tmp/t itself has
the mode rwxr-xr-x, and for the string "rwxr-xr-x" the walk prints two lines,
/tmp/t and /tmp/t/b. -/
theorem traverse_scenario_root_printed :
    Scenario fsScenario 0o040755 0o100644 0o040755 0o100600 ∧
    printed (traverse fsScenario "rwxr-xr-x".toList 3 "/tmp/t".toList true) =
      some ["/tmp/t".toList, "/tmp/t/b".toList] ∧
    printed (traverse fsScenario "rwxr-xr-x".toList 3 "/tmp/t".toList true) ≠
      some ["/tmp/t/b".toList] :=
  ⟨fsScenario_holds, by decide, by decide⟩

/-! ## The path of a child -/

theorem mem_matching (s : List Char) (l : List (List Char × Nat)) (x : List Char) (m : Nat)
    (h : (x, m) ∈ l) (hm : is_matching_permissions s m = some 1) : x ∈ matching s l := by
  unfold matching
  exact List.mem_map.2 ⟨(x, m), List.mem_filter.2 ⟨h, by simpa using hm⟩, rfl⟩

theorem modes_mem_preorder (es : Entries) :
    ∀ (p n : List Char) (m : Nat), (n, m) ∈ es.modes → (joinPath p n, m) ∈ preorder p es := by
  induction es with
  | nil => intro p n m h; cases h
  | cons name mode kids rest _ ihr =>
    intro p n m h
    unfold Entries.modes at h
    unfold preorder
    rcases List.mem_cons.1 h with h | h
    · cases h
      exact List.mem_cons_self _ _
    · exact List.mem_cons_of_mem _ (List.mem_append_right _ (ihr p n m h))
  | gone name rest ihr =>
    intro p n m h
    unfold Entries.modes at h
    unfold preorder
    exact ihr p n m h
  | locked name mode rest ihr =>
    intro p n m h
    unfold Entries.modes at h
    unfold preorder
    rcases List.mem_cons.1 h with h | h
    · cases h
      exact List.mem_cons_self _ _
    · exact List.mem_cons_of_mem _ (ihr p n m h)

theorem names_sublist_allPaths (es : Entries) :
    ∀ p : List Char, (es.names.map (joinPath p)).Sublist (allPaths p es) := by
  induction es with
  | nil => intro p; exact List.Sublist.slnil
  | cons name mode kids rest _ ihr =>
    intro p
    unfold Entries.names allPaths
    rw [List.map_cons]
    exact List.Sublist.cons₂ _ (List.sublist_append_of_sublist_right (ihr p))
  | gone name rest ihr =>
    intro p
    unfold Entries.names allPaths
    rw [List.map_cons]
    exact List.Sublist.cons₂ _ (ihr p)
  | locked name mode rest ihr =>
    intro p
    unfold Entries.names allPaths
    rw [List.map_cons]
    exact List.Sublist.cons₂ _ (ihr p)

/-- The joined path of every entry the file system shows is shorter than
`PATH_MAX`. -/
theorem shows_short (fs : FS) (es : Entries) :
    ∀ (p n : List Char), Shows fs p es → n ∈ es.names →
      (joinPath p n).length < PATH_MAX := by
  induction es with
  | nil => intro p n _ h; cases h
  | cons name mode kids rest _ ihr =>
    intro p n hshow h
    unfold Shows at hshow
    unfold Entries.names at h
    rcases List.mem_cons.1 h with rfl | h
    · exact fs.lstat_short _ _ hshow.1
    · exact ihr p n hshow.2.2 h
  | gone name rest ihr =>
    intro p n hshow h
    unfold Shows at hshow
    unfold Entries.names at h
    rcases List.mem_cons.1 h with rfl | h
    · exact hshow.2.1
    · exact ihr p n hshow.2.2 h
  | locked name mode rest ihr =>
    intro p n hshow h
    unfold Shows at hshow
    unfold Entries.names at h
    rcases List.mem_cons.1 h with rfl | h
    · exact fs.lstat_short _ _ hshow.1
    · exact ihr p n hshow.2.2.2 h

theorem child_path_of_short (p n : List Char) (hp : p.length < PATH_MAX)
    (hfit : (joinPath p n).length < PATH_MAX) : child_path p n = some (joinPath p n) := by
  unfold child_path
  rw [dir_prefix_of_short p hp]
  dsimp only
  rw [joinPath_eq_prefix_append] at hfit ⊢
  exact append_name_of_short _ _ hfit

/-- C8, as amended: let `traverse` be called on a directory path `p` (as the
root or below it) whose query and opening succeed and whose entries, shown
by the file system, have paths shorter than `PATH_MAX` all the way down.
Then the call returns, with any fuel above the height, and the paths it
queries are `p` and then, in pre-order, the paths of the entries, where the
path built and queried for the child `n` of `p` is `p`, a slash and `n` when
`p` is not "/", and the slash and `n` when `p` is "/": these child paths occur
among the queried paths in listing order, each is what the buffer code of
lines 83-106 builds, and the path of a child whose mode matches is among the
printed lines. -/
theorem child_path_spec (fs : FS) (s : List Char) (hs : is_valid_permissions (some s) = 1)
    (p : List Char) (initial : Bool) (mode : Nat) (kids : Entries) (fuel : Nat)
    (hq : (if initial then fs.stat p else fs.lstat p) = some mode)
    (hd : S_ISDIR mode = true)
    (hopen : ∃ names, fs.opendir p = some names ∧ realNames names = kids.names)
    (hshow : Shows fs p kids) (hfuel : kids.height < fuel) :
    traverse fs s fuel p initial =
      some (⟨p :: allPaths p kids, matching s ((p, mode) :: preorder p kids),
        diagnostics p kids⟩, EXIT_SUCCESS) ∧
    (kids.names.map (fun n => if p = ['/'] then '/' :: n else p ++ '/' :: n)).Sublist
      (allPaths p kids) ∧
    (∀ n, n ∈ kids.names →
      child_path p n = some (if p = ['/'] then '/' :: n else p ++ '/' :: n)) ∧
    (∀ n m, (n, m) ∈ kids.modes → is_matching_permissions s m = some 1 →
      (if p = ['/'] then '/' :: n else p ++ '/' :: n) ∈ matching s (preorder p kids)) ∧
    (∀ (name : List Char) (m : Nat) (below rest : Entries),
      kids = Entries.cons name m below rest →
      allPaths p kids =
        (if p = ['/'] then '/' :: name else p ++ '/' :: name) ::
          (allPaths (if p = ['/'] then '/' :: name else p ++ '/' :: name) below ++
            allPaths p rest)) := by
  have hshort : p.length < PATH_MAX := by
    cases initial with
    | true => exact fs.stat_short _ _ (by simpa using hq)
    | false => exact fs.lstat_short _ _ (by simpa using hq)
  refine ⟨?_, names_sublist_allPaths kids p, ?_, ?_, ?_⟩
  · exact traverse_shows_at fs s hs p initial mode kids hq
      (by rw [if_pos hd]; exact ⟨hopen, hshow⟩) fuel hfuel
  · intro n hn
    exact child_path_of_short p n hshort (shows_short fs kids p n hshow hn)
  · intro n m hnm hm
    exact mem_matching s _ _ m (modes_mem_preorder kids p n m hnm) hm
  · intro name m below rest hk
    subst hk
    rfl

/-- Witness of C8 as amended: the directory "/" of `fsSlash` with its child
`a`, and the directory /tmp/t/b of `fsScenario`, below the root, with its
child `c`. -/
theorem child_path_spec_witness :
    traverse fsSlash "rw-r--r--".toList 2 "/".toList true =
      some (⟨["/".toList, "/a".toList], ["/a".toList], []⟩, EXIT_SUCCESS) ∧
    child_path "/".toList "a".toList = some "/a".toList ∧
    traverse fsScenario "rw-------".toList 2 "/tmp/t/b".toList false =
      some (⟨["/tmp/t/b".toList, "/tmp/t/b/c".toList], ["/tmp/t/b/c".toList], []⟩,
        EXIT_SUCCESS) ∧
    child_path "/tmp/t/b".toList "c".toList = some "/tmp/t/b/c".toList :=
  have hslash := child_path_spec fsSlash "rw-r--r--".toList (by decide) "/".toList true
    0o040755 (Entries.cons "a".toList 0o100644 Entries.nil Entries.nil) 2 (by decide)
    (by decide) ⟨[".".toList, "..".toList, "a".toList], by decide, by decide⟩
    ⟨by decide, by rw [if_neg (by decide)], trivial⟩ (by decide)
  have hb := child_path_spec fsScenario "rw-------".toList (by decide) "/tmp/t/b".toList false
    0o040755 (Entries.cons "c".toList 0o100600 Entries.nil Entries.nil) 2 (by decide)
    (by decide) ⟨[".".toList, "..".toList, "c".toList], by decide, by decide⟩
    ⟨by decide, by rw [if_neg (by decide)], trivial⟩ (by decide)
  ⟨hslash.1, hslash.2.2.1 "a".toList (by decide), hb.1, hb.2.2.1 "c".toList (by decide)⟩

/-- C8 as stated fails at the directory "/": in `fsSlash` the child `a` of
"/" is queried and printed under the path /a, which is not the path "/", a
slash and `a`. -/
theorem child_path_of_slash :
    child_path "/".toList "a".toList = some "/a".toList ∧
    traverse fsSlash "rw-r--r--".toList 2 "/".toList true =
      some (⟨["/".toList, "/a".toList], ["/a".toList], []⟩, EXIT_SUCCESS) ∧
    "/a".toList ≠ "/".toList ++ "/".toList ++ "a".toList := by
  decide

/-! ## spfind.c -/

/-- C9, the code at a failing input: the sorter's output is the one line
made of `deepDir` and the file name "Usage:", 1030 bytes and a newline; it
arrives as a read of 1024 bytes and a read of 7 bytes.  The first line does
not begin with "Usage:", yet the loop sets `is_usage` at the second read and
no line "Total matches: 1" is printed. -/
theorem spfind_total_suppressed :
    deepDir.length = 1024 ∧
    ¬ ("Usage:".toList <+: first_line (deepDir ++ "Usage:\n".toList)) ∧
    (deepDir ++ "Usage:\n".toList).count '\n' = 1 ∧
    spfind_read [deepDir, "Usage:\n".toList] =
      some ⟨deepDir ++ "Usage:\n".toList, none, EXIT_SUCCESS⟩ := by
  set_option maxRecDepth 200000 in
  refine ⟨by decide, by decide, by decide, by decide⟩

/-! ## Bounds of the matcher loop, and main -/

end PFind
